import Mathlib

/-!
# Verification of the pycsg CSG engine (`csg/core.py`) against its specification

The repository ships `csg/core.py` (the `CSG` class).  Its geometric helpers
(`csg/geom.py`: `Vector`, `Vertex`, `Plane`, `Polygon`, `BSPNode`) are not part
of the sources available here, so those are modelled from the specification
(each such definition is marked `Modelled from the spec:`).

Numbers are modelled as rationals (`ℚ`).  The only operation of the spec that
rationals cannot express is vector normalisation (`unit`, which divides by a
square root); every definition that constructs a plane from points is therefore
parameterised by the normalisation function `unitFn : Vector → Vector`, and all
theorems are proved for an arbitrary `unitFn`.
-/

namespace PyCSG

/-- Modelled from the spec: a 3D vector with three components
("Vector: three finite floating-point components (x, y, z)"). -/
structure Vector where
  x : ℚ
  y : ℚ
  z : ℚ
deriving DecidableEq, Repr

namespace Vector

/-- Modelled from the spec: vector addition (`Vector.plus`). -/
def plus (a b : Vector) : Vector := ⟨a.x + b.x, a.y + b.y, a.z + b.z⟩

/-- Modelled from the spec: vector subtraction (`Vector.minus`). -/
def minus (a b : Vector) : Vector := ⟨a.x - b.x, a.y - b.y, a.z - b.z⟩

/-- Modelled from the spec: scalar multiplication (`Vector.times`). -/
def times (a : Vector) (t : ℚ) : Vector := ⟨a.x * t, a.y * t, a.z * t⟩

/-- Modelled from the spec: negation (`Vector.negated`). -/
def negated (a : Vector) : Vector := ⟨-a.x, -a.y, -a.z⟩

/-- Modelled from the spec: dot product (`Vector.dot`). -/
def dot (a b : Vector) : ℚ := a.x * b.x + a.y * b.y + a.z * b.z

/-- Modelled from the spec: cross product (`Vector.cross`). -/
def cross (a b : Vector) : Vector :=
  ⟨a.y * b.z - a.z * b.y, a.z * b.x - a.x * b.z, a.x * b.y - a.y * b.x⟩

/-- Modelled from the spec: linear interpolation `a + t(b - a)`
(used by `Vertex.interpolate`). -/
def lerp (a b : Vector) (t : ℚ) : Vector := a.plus ((b.minus a).times t)

end Vector

/-- Modelled from the spec: a vertex is a position and a normal
("Vertex: a position Vector and a normal Vector"). -/
structure Vertex where
  pos : Vector
  normal : Vector
deriving DecidableEq, Repr

namespace Vertex

/-- Modelled from the spec: "Operation `flip` negates the normal." -/
def flip (v : Vertex) : Vertex := ⟨v.pos, v.normal.negated⟩

/-- Modelled from the spec: "Operation `clone` returns an independent copy."
On values a deep copy is the identity. -/
def clone (v : Vertex) : Vertex := ⟨v.pos, v.normal⟩

/-- Modelled from the spec: `interpolate(a, b, t)` — position and normal are
each linearly interpolated; the normal is not renormalised. -/
def interpolate (a b : Vertex) (t : ℚ) : Vertex :=
  ⟨a.pos.lerp b.pos t, a.normal.lerp b.normal t⟩

end Vertex

/-- Modelled from the spec: an oriented plane `n · p = w`. -/
structure Plane where
  normal : Vector
  w : ℚ
deriving DecidableEq, Repr

namespace Plane

/-- Modelled from the spec: the classification tolerance, `EPS = 1e-5`. -/
def EPSILON : ℚ := 1 / 100000

/-- Modelled from the spec: "Operation `flip` negates both `n` and `w`." -/
def flip (p : Plane) : Plane := ⟨p.normal.negated, -p.w⟩

/-- Modelled from the spec: construction from three points,
`n = unit((b-a) × (c-a))`, `w = n · a`.  Normalisation is the supplied
`unitFn` because `unit` needs a square root, unavailable over `ℚ`. -/
def fromPoints (unitFn : Vector → Vector) (a b c : Vector) : Plane :=
  let n := unitFn ((b.minus a).cross (c.minus a))
  ⟨n, n.dot a⟩

end Plane

/-- Modelled from the spec: an ordered vertex list plus the plane derived from
the first three vertex positions. -/
structure Polygon where
  vertices : List Vertex
  plane : Plane
deriving DecidableEq, Repr

namespace Polygon

/-- Modelled from the spec: polygon construction computes the plane from the
first three vertex positions. -/
def mk' (unitFn : Vector → Vector) (vs : List Vertex) : Polygon :=
  ⟨vs, Plane.fromPoints unitFn
        ((vs.getD 0 ⟨⟨0,0,0⟩,⟨0,0,0⟩⟩).pos)
        ((vs.getD 1 ⟨⟨0,0,0⟩,⟨0,0,0⟩⟩).pos)
        ((vs.getD 2 ⟨⟨0,0,0⟩,⟨0,0,0⟩⟩).pos)⟩

/-- Modelled from the spec: "Operation `flip` reverses vertex order and flips
every vertex and the plane." -/
def flip (p : Polygon) : Polygon :=
  ⟨(p.vertices.map Vertex.flip).reverse, p.plane.flip⟩

/-- Modelled from the spec: "Operation `clone` deep-copies all vertices and
the plane." -/
def clone (p : Polygon) : Polygon := ⟨p.vertices.map Vertex.clone, p.plane⟩

end Polygon

/-- The `CSG` class of `core.py`: "a polygon list wrapper". -/
structure CSG where
  polygons : List Polygon
deriving DecidableEq, Repr

namespace CSG

/-- `core.py` lines 64-68: `fromPolygons` stores the given list. -/
def fromPolygons (polygons : List Polygon) : CSG := ⟨polygons⟩

/-- `core.py` lines 70-73: `clone` maps `Polygon.clone` over the list. -/
def clone (s : CSG) : CSG := ⟨s.polygons.map Polygon.clone⟩

/-- `core.py` lines 75-76: `toPolygons` returns the stored list. -/
def toPolygons (s : CSG) : List Polygon := s.polygons

/-- `core.py` lines 268-275: `inverse` clones `self`, then executes the
statement `map(lambda p: p.flip(), csg.polygons)`.  Under Python 3 `map` is
lazy and its result is discarded, so the lambda never runs and no polygon is
flipped: the method returns the unmodified clone. -/
def inverse (s : CSG) : CSG := s.clone

/-- What `inverse` would return had the `map` been forced (each polygon
flipped), i.e. the behaviour documented in its docstring and in the spec. -/
def inverseDocumented (s : CSG) : CSG := ⟨s.polygons.map Polygon.flip⟩

/-- `core.py` lines 78-88: `translate` sets `v.pos = v.pos.plus(d)` for every
vertex of every polygon; normals are untouched ("no change to the normals")
and the polygons' `plane` fields are never recomputed. -/
def translate (s : CSG) (disp : ℚ × ℚ × ℚ) : CSG :=
  let d : Vector := ⟨disp.1, disp.2.1, disp.2.2⟩
  ⟨s.polygons.map fun poly =>
    { poly with vertices := poly.vertices.map fun v => { v with pos := v.pos.plus d } }⟩

/-- The dictionary key `(p[0], p[1], p[2])` used by `toVerticesAndPolygons`. -/
def vKey (v : Vertex) : ℚ × ℚ × ℚ := (v.pos.x, v.pos.y, v.pos.z)

/-- Lookup in the modelled dict: the value at the first matching key
(keys are unique, so this is exactly Python's `vertexIndexMap[vKey]`). -/
def mapLookup : List ((ℚ × ℚ × ℚ) × ℕ) → (ℚ × ℚ × ℚ) → Option ℕ
  | [], _ => none
  | (k', i) :: m, k => if k = k' then some i else mapLookup m k

/-- The per-vertex loop of `toVerticesAndPolygons` (`core.py` lines 138-145):
the Python dict `vertexIndexMap` is modelled as an association list kept in
insertion order (Python dicts preserve insertion order); a missing key is
inserted with value `len(vertexIndexMap)`.  Returns the updated map, the cell,
and the updated running `count`. -/
def tvVerts : List Vertex → List ((ℚ × ℚ × ℚ) × ℕ) → ℕ →
    List ((ℚ × ℚ × ℚ) × ℕ) × List ℕ × ℕ
  | [], m, count => (m, [], count)
  | v :: vs, m, count =>
    let r :=
      match mapLookup m (vKey v) with
      | some i => (m, i)
      | none => (m ++ [(vKey v, m.length)], m.length)
    let rest := tvVerts vs r.1 (count + 1)
    (rest.1, r.2 :: rest.2.1, rest.2.2)

/-- The per-polygon loop of `toVerticesAndPolygons` (`core.py` lines 135-146). -/
def tvPolys : List Polygon → List ((ℚ × ℚ × ℚ) × ℕ) → ℕ →
    List ((ℚ × ℚ × ℚ) × ℕ) × List (List ℕ) × ℕ
  | [], m, count => (m, [], count)
  | p :: ps, m, count =>
    let r := tvVerts p.vertices m count
    let rest := tvPolys ps r.1 r.2.2
    (rest.1, r.2.1 :: rest.2.1, rest.2.2)

/-- `core.py` lines 124-151: `toVerticesAndPolygons`.  The final
`sorted(vertexIndexMap.items(), key=itemgetter(1))` sorts the dict items by
index; since indices are assigned as `len(vertexIndexMap)` at insertion they
increase in insertion order, so the sort returns the items in insertion order,
i.e. the association list itself; `verts` is its list of keys. -/
def toVerticesAndPolygons (s : CSG) : List (ℚ × ℚ × ℚ) × List (List ℕ) × ℕ :=
  let r := tvPolys s.polygons [] 0
  (r.1.map Prod.fst, r.2.1, r.2.2)

/-- Claim-side reference: deduplication keeping the first occurrence of each
key, in first-seen order, starting from the accumulator `acc`. -/
def firstSeenAux : List (ℚ × ℚ × ℚ) → List (ℚ × ℚ × ℚ) → List (ℚ × ℚ × ℚ)
  | acc, [] => acc
  | acc, k :: ks => firstSeenAux (if k ∈ acc then acc else acc ++ [k]) ks

/-- Claim-side reference: first-seen deduplication of a key list. -/
def firstSeen (l : List (ℚ × ℚ × ℚ)) : List (ℚ × ℚ × ℚ) := firstSeenAux [] l

/-- Claim-side reference: the index (position) of the first occurrence of a
key in a key list. -/
def keyIndex : List (ℚ × ℚ × ℚ) → (ℚ × ℚ × ℚ) → ℕ
  | [], _ => 0
  | a :: l, k => if k = a then 0 else keyIndex l k + 1

/-- All vertex-position keys of a solid, in traversal order. -/
def allKeys (s : CSG) : List (ℚ × ℚ × ℚ) :=
  s.polygons.flatMap fun p => p.vertices.map vKey

/-- `numbered s m` says the values of the association list `m` are
`s, s+1, s+2, …` in order — the invariant of `vertexIndexMap`, whose values
are assigned as `len(vertexIndexMap)` at insertion time. -/
def numbered : ℕ → List ((ℚ × ℚ × ℚ) × ℕ) → Prop
  | _, [] => True
  | s, e :: rest => e.2 = s ∧ numbered (s + 1) rest

/-- `core.py` lines 153-173 (`saveVTK`): the sequence of strings passed to
`f.write`, in order.  Number rendering of coordinates (`'{}'.format` on a
Python float) is abstracted by the parameter `fmt`; `ℕ` counts and indices
are rendered in decimal exactly as Python renders `int`s. -/
def saveVTKWrites (fmt : ℚ → String) (s : CSG) : List String :=
  let r := s.toVerticesAndPolygons
  let verts := r.1
  let cells := r.2.1
  let count := r.2.2
  ["# vtk DataFile Version 3.0\n", "pycsg output\n", "ASCII\n", "DATASET POLYDATA\n"]
    ++ ["POINTS " ++ toString verts.length ++ " float\n"]
    ++ verts.map (fun v => fmt v.1 ++ " " ++ fmt v.2.1 ++ " " ++ fmt v.2.2 ++ "\n")
    ++ ["POLYGONS " ++ toString cells.length ++ " "
          ++ toString (count + cells.length) ++ "\n"]
    ++ cells.flatMap fun cell =>
        (toString cell.length ++ " \n") :: cell.map fun i => toString i ++ " \n"

/-- The whole file content written by `saveVTK`: the concatenation of the
written strings. -/
def saveVTKContent (fmt : ℚ → String) (s : CSG) : String :=
  String.join (saveVTKWrites fmt s)

/-- Modelled from the spec: the per-cell record format the claim asserts,
read literally — `'k\n i_1\n i_2\n ... i_k\n'`, i.e. the vertex count followed
by a newline, then each index preceded by a space and followed by a newline. -/
def vtkClaimRecord (cell : List ℕ) : String :=
  toString cell.length ++ "\n"
    ++ String.join (cell.map fun i => " " ++ toString i ++ "\n")

/-- Modelled from the spec: the complete file content the claim asserts
(headers, POINTS section, POLYGONS section with `vtkClaimRecord` cells). -/
def vtkClaimContent (fmt : ℚ → String) (s : CSG) : String :=
  let r := s.toVerticesAndPolygons
  let verts := r.1
  let cells := r.2.1
  let count := r.2.2
  "# vtk DataFile Version 3.0\n" ++ "pycsg output\n" ++ "ASCII\n" ++ "DATASET POLYDATA\n"
    ++ "POINTS " ++ toString verts.length ++ " float\n"
    ++ String.join (verts.map fun v => fmt v.1 ++ " " ++ fmt v.2.1 ++ " " ++ fmt v.2.2 ++ "\n")
    ++ "POLYGONS " ++ toString cells.length ++ " " ++ toString (count + cells.length) ++ "\n"
    ++ String.join (cells.map vtkClaimRecord)

/-- The per-cell record `saveVTK` actually writes: the count and each index
are each followed by a space and a newline (`'{} \n'.format(...)`). -/
def vtkActualRecord (cell : List ℕ) : String :=
  toString cell.length ++ " \n"
    ++ String.join (cell.map fun i => toString i ++ " \n")

/-- The claim's file-content format with only the per-cell records corrected
to the `'{} \n'` form the code writes. -/
def vtkAmendedContent (fmt : ℚ → String) (s : CSG) : String :=
  let r := s.toVerticesAndPolygons
  let verts := r.1
  let cells := r.2.1
  let count := r.2.2
  "# vtk DataFile Version 3.0\n" ++ "pycsg output\n" ++ "ASCII\n" ++ "DATASET POLYDATA\n"
    ++ "POINTS " ++ toString verts.length ++ " float\n"
    ++ String.join (verts.map fun v => fmt v.1 ++ " " ++ fmt v.2.1 ++ " " ++ fmt v.2.2 ++ "\n")
    ++ "POLYGONS " ++ toString cells.length ++ " " ++ toString (count + cells.length) ++ "\n"
    ++ String.join (cells.map vtkActualRecord)

/-- The vertex helper of `CSG.sphere` (`core.py` lines 371-376): the direction
`d` from the spherical angles and the vertex `Vertex(c + d*r, d)`.  The
trigonometric functions and π of the Python code are abstracted by the
parameters `cosF`, `sinF`, `piF` (floats are outside `ℚ`); only the polygon
structure matters for the claims below. -/
def sphereVertex (cosF sinF : ℚ → ℚ) (c : Vector) (r : ℚ) (theta phi : ℚ) : Vertex :=
  let d : Vector := ⟨c.x + r * cosF theta * sinF phi,
                     c.y + r * cosF phi,
                     c.z + r * sinF theta * sinF phi⟩
  ⟨c.plus (d.times r), d⟩

/-- `core.py` lines 346-392 (`CSG.sphere`): one polygon per `(slice, stack)`
pair; the vertex list of polygon `(i, j)` has its middle vertices only when
`j > 0` resp. `j < stacks - 1`. -/
def sphere (unitFn : Vector → Vector) (cosF sinF : ℚ → ℚ) (piF : ℚ)
    (c : Vector) (r : ℚ) (slices numStacks : ℕ) : CSG :=
  let dTheta := piF * 2 / (slices : ℚ)
  let dPhi := piF / (numStacks : ℚ)
  let vert := fun (i j : ℕ) => sphereVertex cosF sinF c r ((i : ℚ) * dTheta) ((j : ℚ) * dPhi)
  fromPolygons <|
    (List.range slices).flatMap fun i =>
      (List.range numStacks).map fun j =>
        let i1 := (i + 1) % slices
        let j1 := j + 1
        Polygon.mk' unitFn <|
          [vert i j]
            ++ (if j > 0 then [vert i1 j] else [])
            ++ (if j < numStacks - 1 then [vert i1 j1] else [])
            ++ [vert i j1]

end CSG

/-- A default polygon value (used only for out-of-range heap reads, which
never occur on the executed paths). -/
def defaultPolygon : Polygon := ⟨[], ⟨⟨0, 0, 0⟩, 0⟩⟩

/-- A default vertex value (used only for out-of-range list reads, which
never occur on the executed paths). -/
def defaultVertex : Vertex := ⟨⟨0, 0, 0⟩, ⟨0, 0, 0⟩⟩

/-!
## The store model

Python `Polygon` objects are mutable and passed by reference: the BSP methods
flip polygons in place and result solids share polygon objects with the trees.
To state aliasing and non-mutation claims faithfully, the `Store` namespace
models the program state as a heap of polygon values addressed by identity
(`ℕ`); solids and BSP nodes hold addresses.  Vertices are held by value inside
polygon values: `core.py` never shares a mutable vertex object between an
operand solid and a BSP tree (operands are deep-cloned first), so polygon
granularity is faithful for the claims below.
-/

namespace Store

/-- The heap of polygon objects; the address of an object is its index. -/
abbrev Heap := List Polygon

/-- Read the polygon object at address `i`. -/
def readP (h : Heap) (i : ℕ) : Polygon := (h.get? i).getD defaultPolygon

/-- Allocate a new polygon object; returns the heap and the fresh address. -/
def alloc (h : Heap) (p : Polygon) : Heap × ℕ := (h ++ [p], h.length)

/-- Overwrite the polygon object at address `i` (in-place mutation). -/
def writeP (h : Heap) (i : ℕ) (p : Polygon) : Heap := h.set i p

/-- Modelled from the spec: the `COPLANAR` vertex tag. -/
def COPLANAR : ℕ := 0

/-- Modelled from the spec: the `FRONT` vertex tag. -/
def FRONT : ℕ := 1

/-- Modelled from the spec: the `BACK` vertex tag. -/
def BACK : ℕ := 2

/-- Modelled from the spec: the `SPANNING` tag (`FRONT ||| BACK`). -/
def SPANNING : ℕ := 3

/-- Modelled from the spec: the epsilon classifier — `BACK` when
`t < -EPS`, `FRONT` when `t > EPS`, `COPLANAR` when `|t| < EPS`
(`t = n · v.pos − w`). -/
def classify (pl : Plane) (v : Vertex) : ℕ :=
  let t := pl.normal.dot v.pos - pl.w
  if t < -Plane.EPSILON then BACK else if t > Plane.EPSILON then FRONT else COPLANAR

/-- Modelled from the spec (§4.2): the SPANNING-case ring walk accumulating
the front and back vertex lists.  For each consecutive pair `(v_i, v_j)`:
a non-`BACK` vertex goes to the front list; a non-`FRONT` vertex goes to the
back list (cloned when it also went to the front list); a spanning edge adds
the interpolated intersection vertex to both lists (cloned into the back). -/
def splitVerts (pl : Plane) (vs : List Vertex) (types : List ℕ) :
    List Vertex × List Vertex :=
  let n := vs.length
  (List.range n).foldl
    (fun acc i =>
      let j := (i + 1) % n
      let ti := types.getD i COPLANAR
      let tj := types.getD j COPLANAR
      let vi := vs.getD i defaultVertex
      let vj := vs.getD j defaultVertex
      let f := if ti ≠ BACK then acc.1 ++ [vi] else acc.1
      let b := if ti ≠ FRONT then acc.2 ++ [if ti ≠ BACK then vi.clone else vi] else acc.2
      if ti ||| tj = SPANNING then
        let t := (pl.w - pl.normal.dot vi.pos) / (pl.normal.dot (vj.pos.minus vi.pos))
        let v := vi.interpolate vj t
        (f ++ [v], b ++ [v.clone])
      else (f, b))
    ([], [])

/-- Modelled from the spec (§4.2): split the polygon object at address `pid`
by the plane `pl`; returns the heap and the four disjoint output buckets
`(coplanarFront, coplanarBack, front, back)` as address lists.  Non-spanning
polygons are routed by reference; a spanning polygon produces up to two fresh
polygon objects (a part is dropped when it has fewer than 3 vertices). -/
def splitPolygon (unitFn : Vector → Vector) (pl : Plane) (h : Heap) (pid : ℕ) :
    Heap × List ℕ × List ℕ × List ℕ × List ℕ :=
  let p := readP h pid
  let types := p.vertices.map (classify pl)
  let polygonType := types.foldl (· ||| ·) COPLANAR
  if polygonType = COPLANAR then
    if pl.normal.dot p.plane.normal > 0 then (h, [pid], [], [], [])
    else (h, [], [pid], [], [])
  else if polygonType = FRONT then (h, [], [], [pid], [])
  else if polygonType = BACK then (h, [], [], [], [pid])
  else
    let fb := splitVerts pl p.vertices types
    let hf := if fb.1.length ≥ 3 then
        let r := alloc h (Polygon.mk' unitFn fb.1); (r.1, [r.2])
      else (h, ([] : List ℕ))
    let hb := if fb.2.length ≥ 3 then
        let r := alloc hf.1 (Polygon.mk' unitFn fb.2); (r.1, [r.2])
      else (hf.1, ([] : List ℕ))
    (hb.1, [], [], hf.2, hb.2)

/-- Modelled from the spec: a BSP node — optional splitting plane, coplanar
polygon addresses, optional front and back children. -/
inductive BSPNode where
  | mk (plane : Option Plane) (polygons : List ℕ)
       (front : Option BSPNode) (back : Option BSPNode)

/-- A freshly constructed, empty BSP node. -/
def emptyNode : BSPNode := .mk none [] none none

/-- The split loop of `clip_polygons`: each polygon is split against `pl`,
with coplanar-same-facing parts joining the front bucket and
coplanar-opposite parts the back bucket. -/
def clipSplit (unitFn : Vector → Vector) (pl : Plane) (h : Heap) :
    List ℕ → Heap × List ℕ × List ℕ
  | [] => (h, [], [])
  | pid :: rest =>
    let r := splitPolygon unitFn pl h pid
    let rr := clipSplit unitFn pl r.1 rest
    (rr.1, r.2.1 ++ r.2.2.2.1 ++ rr.2.1, r.2.2.1 ++ r.2.2.2.2 ++ rr.2.2)

/-- The split loop of `build`: accumulates all four buckets. -/
def buildSplit (unitFn : Vector → Vector) (pl : Plane) (h : Heap) :
    List ℕ → Heap × List ℕ × List ℕ × List ℕ × List ℕ
  | [] => (h, [], [], [], [])
  | pid :: rest =>
    let r := splitPolygon unitFn pl h pid
    let rr := buildSplit unitFn pl r.1 rest
    (rr.1, r.2.1 ++ rr.2.1, r.2.2.1 ++ rr.2.2.1,
      r.2.2.2.1 ++ rr.2.2.2.1, r.2.2.2.2 ++ rr.2.2.2.2)

/-- Modelled from the spec (§4.3 `clip_polygons`): return the portions of
`ids` outside the solid of this subtree.  A plane-less node returns the list
unchanged; otherwise split into front/back buckets, recurse into existing
children, drop the back bucket at a missing back child, and return
`front ++ back`. -/
def clipPolygons (unitFn : Vector → Vector) : BSPNode → Heap → List ℕ → Heap × List ℕ
  | .mk none _ _ _, h, ids => (h, ids)
  | .mk (some pl) _ fr bk, h, ids =>
    let s := clipSplit unitFn pl h ids
    let f2 := match fr with
      | some ft => clipPolygons unitFn ft s.1 s.2.1
      | none => (s.1, s.2.1)
    let b2 := match bk with
      | some bt => clipPolygons unitFn bt f2.1 s.2.2
      | none => (f2.1, [])
    (b2.1, f2.2 ++ b2.2)

/-- Modelled from the spec (§4.3 `clip_to`): replace this node's polygon list
with `other.clip_polygons(self.polygons)`, then recurse into the children. -/
def clipTo (unitFn : Vector → Vector) : BSPNode → BSPNode → Heap → Heap × BSPNode
  | .mk pl polys fr bk, other, h =>
    let r := clipPolygons unitFn other h polys
    let rf := match fr with
      | some f => let q := clipTo unitFn f other r.1; (q.1, some q.2)
      | none => (r.1, (none : Option BSPNode))
    let rb := match bk with
      | some b => let q := clipTo unitFn b other rf.1; (q.1, some q.2)
      | none => (rf.1, (none : Option BSPNode))
    (rb.1, .mk pl (r.2) rf.2 rb.2)

/-- The in-place flip of the polygon object at address `i`
(`poly.flip()` on the heap). -/
def flipStep (h : Heap) (i : ℕ) : Heap := writeP h i (Polygon.flip (readP h i))

/-- Modelled from the spec (§4.3 `invert`): flip every polygon object of this
node in place, flip the splitting plane, swap the subtrees, then recurse into
both subtrees. -/
def invert : BSPNode → Heap → Heap × BSPNode
  | .mk pl polys fr bk, h =>
    let h1 := polys.foldl flipStep h
    let pl' := pl.map Plane.flip
    let rf := match bk with
      | some b => let q := invert b h1; (q.1, some q.2)
      | none => (h1, (none : Option BSPNode))
    let rb := match fr with
      | some f => let q := invert f rf.1; (q.1, some q.2)
      | none => (rf.1, (none : Option BSPNode))
    (rb.1, .mk pl' polys rf.2 rb.2)

/-- Modelled from the spec (§4.3 `all_polygons`):
`polygons ++ front.all_polygons() ++ back.all_polygons()`. -/
def allPolygons : BSPNode → List ℕ
  | .mk _ polys fr bk =>
    polys ++ (match fr with | some f => allPolygons f | none => [])
      ++ (match bk with | some b => allPolygons b | none => [])

/-- Modelled from the spec (§4.3 `build`): insert polygons, adopting the
first polygon's plane when the node has none, keeping coplanar parts here and
recursively building children from the front and back buckets.  `build` on an
empty list leaves the tree untouched (the spec constructs a leaf from an
empty list, and Boolean operations call `build` with possibly-empty
`all_polygons()` results).  Recursion depth is bounded by `fuel`; out-of-fuel
returns the state unchanged, and every theorem below holds for every fuel. -/
def build (unitFn : Vector → Vector) : ℕ → BSPNode → Heap → List ℕ → Heap × BSPNode
  | 0, t, h, _ => (h, t)
  | _ + 1, t, h, [] => (h, t)
  | fuel + 1, .mk pl polys fr bk, h, pid :: rest =>
    let plane := match pl with
      | some q => q
      | none => (readP h pid).plane
    let s := buildSplit unitFn plane h (pid :: rest)
    let polys' := polys ++ s.2.1 ++ s.2.2.1
    let rf := if s.2.2.2.1.isEmpty then (s.1, fr) else
        let q := build unitFn fuel (fr.getD emptyNode) s.1 s.2.2.2.1
        (q.1, some q.2)
    let rb := if s.2.2.2.2.isEmpty then (rf.1, bk) else
        let q := build unitFn fuel (bk.getD emptyNode) rf.1 s.2.2.2.2
        (q.1, some q.2)
    (rb.1, .mk (some plane) polys' rf.2 rb.2)

/-- Modelled from the spec: `BSPNode(polys)` — an empty node followed by a
`build` of the polygon list. -/
def bspNode (unitFn : Vector → Vector) (fuel : ℕ) (h : Heap) (ids : List ℕ) :
    Heap × BSPNode :=
  build unitFn fuel emptyNode h ids

/-- A `CSG` solid in the store model: a list of polygon object addresses. -/
structure CSG where
  polygons : List ℕ
deriving DecidableEq, Repr

/-- `core.py` lines 64-68 in the store model: `fromPolygons` stores the
caller's address list itself — no copy of the list, no clone of the
objects. -/
def CSG.fromPolygons (polygons : List ℕ) : CSG := ⟨polygons⟩

/-- `core.py` lines 75-76 in the store model: `toPolygons` returns the stored
address list itself. -/
def CSG.toPolygons (s : CSG) : List ℕ := s.polygons

/-- Clone a list of polygon objects: allocate a fresh deep copy of each. -/
def cloneList (h : Heap) : List ℕ → Heap × List ℕ
  | [] => (h, [])
  | i :: is =>
    let r := alloc h (Polygon.clone (readP h i))
    let rr := cloneList r.1 is
    (rr.1, r.2 :: rr.2)

/-- `core.py` lines 70-73 in the store model: `clone` allocates fresh copies
of all polygon objects. -/
def CSG.clone (h : Heap) (s : CSG) : Heap × CSG :=
  let r := cloneList h s.polygons
  (r.1, ⟨r.2⟩)

/-- The polygon values a solid denotes: its objects read from the heap. -/
def polyValues (h : Heap) (s : CSG) : List Polygon := s.polygons.map (readP h)

/-- `core.py` lines 175-200 (`CSG.union`), in the store model, step for step:
clone both operand polygon lists, build the two BSP trees from the clones,
then `a.clipTo(b); b.clipTo(a); b.invert(); b.clipTo(a); b.invert();
a.build(b.allPolygons())`, returning `fromPolygons(a.allPolygons())`. -/
def CSG.union (unitFn : Vector → Vector) (fuel : ℕ) (h : Heap) (a b : CSG) :
    Heap × CSG :=
  let c1 := CSG.clone h a
  let t1 := bspNode unitFn fuel c1.1 c1.2.polygons
  let c2 := CSG.clone t1.1 b
  let t2 := bspNode unitFn fuel c2.1 c2.2.polygons
  let s1 := clipTo unitFn t1.2 t2.2 t2.1
  let s2 := clipTo unitFn t2.2 s1.2 s1.1
  let s3 := invert s2.2 s2.1
  let s4 := clipTo unitFn s3.2 s1.2 s3.1
  let s5 := invert s4.2 s4.1
  let s6 := build unitFn fuel s1.2 s5.1 (allPolygons s5.2)
  (s6.1, CSG.fromPolygons (allPolygons s6.2))

/-- Modelled from the spec (§4.4 Union pseudocode): `a.clip_to(b);
b.clip_to(a); b.invert(); b.clip_to(a); b.invert();
a.build(b.all_polygons()); return Solid(a.all_polygons())`, after cloning
both operand polygon lists and constructing `a = BSPNode(A.polys)`,
`b = BSPNode(B.polys)`. -/
def unionSpec (unitFn : Vector → Vector) (fuel : ℕ) (h : Heap) (a b : CSG) :
    Heap × CSG :=
  let ca := CSG.clone h a
  let na := bspNode unitFn fuel ca.1 ca.2.polygons
  let cb := CSG.clone na.1 b
  let nb := bspNode unitFn fuel cb.1 cb.2.polygons
  let p1 := clipTo unitFn na.2 nb.2 nb.1
  let p2 := clipTo unitFn nb.2 p1.2 p1.1
  let p3 := invert p2.2 p2.1
  let p4 := clipTo unitFn p3.2 p1.2 p3.1
  let p5 := invert p4.2 p4.1
  let p6 := build unitFn fuel p1.2 p5.1 (allPolygons p5.2)
  (p6.1, CSG.fromPolygons (allPolygons p6.2))

/-- `core.py` lines 205-232 (`CSG.subtract`) in the store model:
`a.invert(); a.clipTo(b); b.clipTo(a); b.invert(); b.clipTo(a); b.invert();
a.build(b.allPolygons()); a.invert()`. -/
def CSG.subtract (unitFn : Vector → Vector) (fuel : ℕ) (h : Heap) (a b : CSG) :
    Heap × CSG :=
  let c1 := CSG.clone h a
  let t1 := bspNode unitFn fuel c1.1 c1.2.polygons
  let c2 := CSG.clone t1.1 b
  let t2 := bspNode unitFn fuel c2.1 c2.2.polygons
  let s0 := invert t1.2 t2.1
  let s1 := clipTo unitFn s0.2 t2.2 s0.1
  let s2 := clipTo unitFn t2.2 s1.2 s1.1
  let s3 := invert s2.2 s2.1
  let s4 := clipTo unitFn s3.2 s1.2 s3.1
  let s5 := invert s4.2 s4.1
  let s6 := build unitFn fuel s1.2 s5.1 (allPolygons s5.2)
  let s7 := invert s6.2 s6.1
  (s7.1, CSG.fromPolygons (allPolygons s7.2))

/-- `core.py` lines 237-263 (`CSG.intersect`) in the store model:
`a.invert(); b.clipTo(a); b.invert(); a.clipTo(b); b.clipTo(a);
a.build(b.allPolygons()); a.invert()`. -/
def CSG.intersect (unitFn : Vector → Vector) (fuel : ℕ) (h : Heap) (a b : CSG) :
    Heap × CSG :=
  let c1 := CSG.clone h a
  let t1 := bspNode unitFn fuel c1.1 c1.2.polygons
  let c2 := CSG.clone t1.1 b
  let t2 := bspNode unitFn fuel c2.1 c2.2.polygons
  let s0 := invert t1.2 t2.1
  let s1 := clipTo unitFn t2.2 s0.2 s0.1
  let s2 := invert s1.2 s1.1
  let s3 := clipTo unitFn s0.2 s2.2 s2.1
  let s4 := clipTo unitFn s2.2 s3.2 s3.1
  let s5 := build unitFn fuel s3.2 s4.1 (allPolygons s4.2)
  let s6 := invert s5.2 s5.1
  (s6.1, CSG.fromPolygons (allPolygons s6.2))

/-- Heap evolution that leaves the objects at addresses `< N` intact (the
heap only grows or is written above `N`). -/
def preserves (N : ℕ) (h h' : Heap) : Prop :=
  h.length ≤ h'.length ∧ ∀ i, i < N → readP h' i = readP h i

/-- Every address in the list is `≥ N` (i.e. allocated after the first `N`
objects). -/
def idsGE (N : ℕ) (l : List ℕ) : Prop := ∀ i ∈ l, N ≤ i

/-- Every polygon address stored anywhere in the tree is `≥ N`. -/
def treeGE (N : ℕ) (t : BSPNode) : Prop := idsGE N (allPolygons t)

/-- The pure tree transformation performed by `invert`: flip the plane, swap
the children, recurse. -/
def invTree : BSPNode → BSPNode
  | .mk pl polys fr bk =>
    .mk (pl.map Plane.flip) polys
      (match bk with | some b => some (invTree b) | none => none)
      (match fr with | some f => some (invTree f) | none => none)

/-- The addresses `invert` writes, in write order: this node's polygons, then
the (post-swap) front subtree (the old back), then the old front. -/
def invOrder : BSPNode → List ℕ
  | .mk _ polys fr bk =>
    polys ++ (match bk with | some b => invOrder b | none => [])
      ++ (match fr with | some f => invOrder f | none => [])

end Store

/-- A concrete triangle in the plane `z = zc`, with vertex normals `(0,0,1)`
and stored plane `(0,0,1) · p = zc`. -/
def triAt (zc : ℚ) : Polygon :=
  ⟨[⟨⟨0, 0, zc⟩, ⟨0, 0, 1⟩⟩, ⟨⟨1, 0, zc⟩, ⟨0, 0, 1⟩⟩, ⟨⟨0, 1, zc⟩, ⟨0, 0, 1⟩⟩],
   ⟨⟨0, 0, 1⟩, zc⟩⟩

/-- A concrete three-polygon solid whose polygon list is ordered
(coplanar-with-root, behind-root, in-front-of-root): building its own BSP
tree redistributes the list to (coplanar, front, back) order. -/
def solidThree : CSG := ⟨[triAt 0, triAt (-1), triAt 1]⟩

end PyCSG

/-!
## Theorems

Helper lemmas first, then one theorem per claim (with a witness where the
theorem carries hypotheses).
-/

namespace PyCSG

theorem vertex_clone_id (v : Vertex) : v.clone = v := rfl

theorem vertex_flip_invol (v : Vertex) : v.flip.flip = v := by
  cases v with
  | mk p n => cases n; simp [Vertex.flip, Vector.negated]

theorem polygon_clone_id (p : Polygon) : p.clone = p := by
  cases p with
  | mk vs pl =>
    simp only [Polygon.clone]
    congr 1
    induction vs with
    | nil => rfl
    | cons v t ih => simp [vertex_clone_id, ih]

theorem polygon_flip_invol (p : Polygon) : p.flip.flip = p := by
  cases p with
  | mk vs pl =>
    cases pl with
    | mk n w =>
      cases n
      simp only [Polygon.flip, Plane.flip, Vector.negated, List.map_reverse,
        List.reverse_reverse, List.map_map, neg_neg]
      congr 1
      induction vs with
      | nil => rfl
      | cons v t ih => simp [vertex_flip_invol, ih]

theorem plane_flip_invol (p : Plane) : p.flip.flip = p := by
  cases p with
  | mk n w => cases n; simp [Plane.flip, Vector.negated]

theorem Polygon.map_clone_eq (l : List Polygon) : l.map Polygon.clone = l := by
  induction l with
  | nil => rfl
  | cons p t ih => simp [polygon_clone_id, ih]

theorem Vector.dot_plus_right (a b c : Vector) :
    a.dot (b.plus c) = a.dot b + a.dot c := by
  cases a; cases b; cases c
  simp [Vector.dot, Vector.plus]
  ring

theorem CSG.keyIndex_append_of_mem {l1 : List (ℚ × ℚ × ℚ)} {k : ℚ × ℚ × ℚ}
    (hk : k ∈ l1) (l2 : List (ℚ × ℚ × ℚ)) :
    CSG.keyIndex (l1 ++ l2) k = CSG.keyIndex l1 k := by
  induction l1 with
  | nil => cases hk
  | cons a l ih =>
    by_cases ha : k = a
    · simp [CSG.keyIndex, ha]
    · have : k ∈ l := by
        rcases List.mem_cons.1 hk with h | h
        · exact absurd h ha
        · exact h
      simp [CSG.keyIndex, ha, ih this]

theorem CSG.keyIndex_of_prefix {l1 l2 : List (ℚ × ℚ × ℚ)} (h : l1 <+: l2)
    {k : ℚ × ℚ × ℚ} (hk : k ∈ l1) : CSG.keyIndex l2 k = CSG.keyIndex l1 k := by
  obtain ⟨t, rfl⟩ := h
  exact CSG.keyIndex_append_of_mem hk t

theorem CSG.keyIndex_concat_self {l : List (ℚ × ℚ × ℚ)} {k : ℚ × ℚ × ℚ}
    (hk : k ∉ l) : CSG.keyIndex (l ++ [k]) k = l.length := by
  induction l with
  | nil => simp [CSG.keyIndex]
  | cons a l ih =>
    have ha : k ≠ a := fun h => hk (by simp [h])
    have hl : k ∉ l := fun h => hk (by simp [h])
    simp [CSG.keyIndex, ha, ih hl]

theorem CSG.firstSeenAux_append (acc l1 l2 : List (ℚ × ℚ × ℚ)) :
    CSG.firstSeenAux acc (l1 ++ l2)
      = CSG.firstSeenAux (CSG.firstSeenAux acc l1) l2 := by
  induction l1 generalizing acc with
  | nil => rfl
  | cons k ks ih => simp only [List.cons_append, CSG.firstSeenAux]; exact ih _

theorem CSG.firstSeenAux_prefix (acc l : List (ℚ × ℚ × ℚ)) :
    acc <+: CSG.firstSeenAux acc l := by
  induction l generalizing acc with
  | nil => exact List.prefix_refl acc
  | cons k ks ih =>
    simp only [CSG.firstSeenAux]
    by_cases hk : k ∈ acc
    · simpa [hk] using ih acc
    · simp only [hk, if_false]
      exact (List.prefix_append acc [k]).trans (ih (acc ++ [k]))

theorem CSG.firstSeenAux_nodup (acc l : List (ℚ × ℚ × ℚ)) (h : acc.Nodup) :
    (CSG.firstSeenAux acc l).Nodup := by
  induction l generalizing acc with
  | nil => exact h
  | cons k ks ih =>
    simp only [CSG.firstSeenAux]
    by_cases hk : k ∈ acc
    · simpa [hk] using ih acc h
    · have hn : (acc ++ [k]).Nodup := by simp [List.nodup_append, h, hk]
      simpa [hk] using ih _ hn

theorem CSG.mapLookup_none (m : List ((ℚ × ℚ × ℚ) × ℕ)) (k : ℚ × ℚ × ℚ) :
    CSG.mapLookup m k = none ↔ k ∉ m.map Prod.fst := by
  induction m with
  | nil => simp [CSG.mapLookup]
  | cons e rest ih =>
    obtain ⟨k', i⟩ := e
    by_cases hk : k = k' <;> simp [CSG.mapLookup, hk, ih]

theorem CSG.mapLookup_some (m : List ((ℚ × ℚ × ℚ) × ℕ)) (k : ℚ × ℚ × ℚ) (i : ℕ) :
    ∀ s, CSG.numbered s m → CSG.mapLookup m k = some i →
      k ∈ m.map Prod.fst ∧ CSG.keyIndex (m.map Prod.fst) k + s = i := by
  induction m with
  | nil => intro s _ h; simp [CSG.mapLookup] at h
  | cons e rest ih =>
    obtain ⟨k', j⟩ := e
    intro s hnum hl
    obtain ⟨hj, hrest⟩ := hnum
    by_cases hk : k = k'
    · simp only [CSG.mapLookup, if_pos hk, Option.some.injEq] at hl
      refine ⟨by simp [hk], ?_⟩
      rw [List.map_cons]
      show CSG.keyIndex (k' :: rest.map Prod.fst) k + s = i
      simp only [CSG.keyIndex, if_pos hk]
      simp only at hj
      omega
    · simp only [CSG.mapLookup, if_neg hk] at hl
      obtain ⟨hmem, hidx⟩ := ih (s + 1) hrest hl
      refine ⟨by simp [hmem], ?_⟩
      rw [List.map_cons]
      show CSG.keyIndex (k' :: rest.map Prod.fst) k + s = i
      simp only [CSG.keyIndex, if_neg hk]
      omega

theorem CSG.numbered_append (k : ℚ × ℚ × ℚ) :
    ∀ (m : List ((ℚ × ℚ × ℚ) × ℕ)) (s : ℕ), CSG.numbered s m →
      CSG.numbered s (m ++ [(k, s + m.length)]) := by
  intro m
  induction m with
  | nil => intro s _; exact ⟨by simp, trivial⟩
  | cons e rest ih =>
    intro s h
    obtain ⟨h1, h2⟩ := h
    refine ⟨h1, ?_⟩
    have harith : s + (e :: rest).length = (s + 1) + rest.length := by
      simp [List.length_cons]; omega
    rw [harith]
    exact ih (s + 1) h2

theorem CSG.tvVerts_spec :
    ∀ (vs : List Vertex) (m : List ((ℚ × ℚ × ℚ) × ℕ)) (count : ℕ),
      CSG.numbered 0 m →
      CSG.numbered 0 (CSG.tvVerts vs m count).1 ∧
      m <+: (CSG.tvVerts vs m count).1 ∧
      (CSG.tvVerts vs m count).1.map Prod.fst
        = CSG.firstSeenAux (m.map Prod.fst) (vs.map CSG.vKey) ∧
      (CSG.tvVerts vs m count).2.2 = count + vs.length ∧
      (CSG.tvVerts vs m count).2.1
        = vs.map (fun v =>
            CSG.keyIndex ((CSG.tvVerts vs m count).1.map Prod.fst) (CSG.vKey v)) ∧
      ∀ v ∈ vs, CSG.vKey v ∈ (CSG.tvVerts vs m count).1.map Prod.fst := by
  intro vs
  induction vs with
  | nil =>
    intro m count hm
    exact ⟨hm, List.prefix_refl m, rfl, by simp [CSG.tvVerts], by simp [CSG.tvVerts],
      by simp⟩
  | cons v vs ih =>
    intro m count hm
    cases hl : CSG.mapLookup m (CSG.vKey v) with
    | some i =>
      have hred : CSG.tvVerts (v :: vs) m count
          = ((CSG.tvVerts vs m (count + 1)).1,
             i :: (CSG.tvVerts vs m (count + 1)).2.1,
             (CSG.tvVerts vs m (count + 1)).2.2) := by
        simp [CSG.tvVerts, hl]
      obtain ⟨ihnum, ihpre, ihfs, ihc, ihcell, ihmem⟩ := ih m (count + 1) hm
      obtain ⟨hkmem, hkidx⟩ := CSG.mapLookup_some m (CSG.vKey v) i 0 hm hl
      rw [hred]
      dsimp only
      refine ⟨ihnum, ihpre, ?_, ?_, ?_, ?_⟩
      · simp only [List.map_cons, CSG.firstSeenAux, if_pos hkmem]
        exact ihfs
      · rw [ihc, List.length_cons]
        omega
      · have hst := CSG.keyIndex_of_prefix (ihpre.map Prod.fst) hkmem
        have hhead : i = CSG.keyIndex
            ((CSG.tvVerts vs m (count + 1)).1.map Prod.fst) (CSG.vKey v) := by omega
        rw [List.map_cons, ← hhead, ihcell]
      · intro u hu
        rcases List.mem_cons.1 hu with h | h
        · subst h
          exact (ihpre.map Prod.fst).subset hkmem
        · exact ihmem u h
    | none =>
      have hknot : CSG.vKey v ∉ m.map Prod.fst := (CSG.mapLookup_none m _).1 hl
      have hm1 : CSG.numbered 0 (m ++ [(CSG.vKey v, m.length)]) := by
        have := CSG.numbered_append (CSG.vKey v) m 0 hm
        simpa using this
      have hred : CSG.tvVerts (v :: vs) m count
          = ((CSG.tvVerts vs (m ++ [(CSG.vKey v, m.length)]) (count + 1)).1,
             m.length :: (CSG.tvVerts vs (m ++ [(CSG.vKey v, m.length)]) (count + 1)).2.1,
             (CSG.tvVerts vs (m ++ [(CSG.vKey v, m.length)]) (count + 1)).2.2) := by
        simp [CSG.tvVerts, hl]
      obtain ⟨ihnum, ihpre, ihfs, ihc, ihcell, ihmem⟩ :=
        ih (m ++ [(CSG.vKey v, m.length)]) (count + 1) hm1
      have hmemm1 : CSG.vKey v ∈ (m ++ [(CSG.vKey v, m.length)]).map Prod.fst := by simp
      rw [hred]
      dsimp only
      refine ⟨ihnum, (List.prefix_append m _).trans ihpre, ?_, ?_, ?_, ?_⟩
      · simp only [List.map_cons, CSG.firstSeenAux, if_neg hknot]
        rw [ihfs]
        congr 1
        simp
      · rw [ihc, List.length_cons]
        omega
      · have hst := CSG.keyIndex_of_prefix (ihpre.map Prod.fst) hmemm1
        have hci : CSG.keyIndex ((m ++ [(CSG.vKey v, m.length)]).map Prod.fst)
            (CSG.vKey v) = m.length := by
          rw [List.map_append]
          simpa using CSG.keyIndex_concat_self hknot
        have hhead : m.length = CSG.keyIndex
            ((CSG.tvVerts vs (m ++ [(CSG.vKey v, m.length)]) (count + 1)).1.map Prod.fst)
            (CSG.vKey v) := by omega
        rw [List.map_cons, ← hhead, ihcell]
      · intro u hu
        rcases List.mem_cons.1 hu with h | h
        · subst h
          exact (ihpre.map Prod.fst).subset hmemm1
        · exact ihmem u h

theorem CSG.tvPolys_spec :
    ∀ (ps : List Polygon) (m : List ((ℚ × ℚ × ℚ) × ℕ)) (count : ℕ),
      CSG.numbered 0 m →
      CSG.numbered 0 (CSG.tvPolys ps m count).1 ∧
      m <+: (CSG.tvPolys ps m count).1 ∧
      (CSG.tvPolys ps m count).1.map Prod.fst
        = CSG.firstSeenAux (m.map Prod.fst) (ps.flatMap fun p => p.vertices.map CSG.vKey) ∧
      (CSG.tvPolys ps m count).2.2 = count + (ps.map fun p => p.vertices.length).sum ∧
      (CSG.tvPolys ps m count).2.1
        = ps.map (fun p => p.vertices.map fun v =>
            CSG.keyIndex ((CSG.tvPolys ps m count).1.map Prod.fst) (CSG.vKey v)) ∧
      ∀ p ∈ ps, ∀ v ∈ p.vertices,
        CSG.vKey v ∈ (CSG.tvPolys ps m count).1.map Prod.fst := by
  intro ps
  induction ps with
  | nil =>
    intro m count hm
    exact ⟨hm, List.prefix_refl m, rfl, by simp [CSG.tvPolys], by simp [CSG.tvPolys],
      by simp⟩
  | cons p ps ih =>
    intro m count hm
    obtain ⟨vnum, vpre, vfs, vc, vcell, vmem⟩ := CSG.tvVerts_spec p.vertices m count hm
    obtain ⟨ihnum, ihpre, ihfs, ihc, ihcell, ihmem⟩ :=
      ih (CSG.tvVerts p.vertices m count).1 (CSG.tvVerts p.vertices m count).2.2 vnum
    have hred : CSG.tvPolys (p :: ps) m count
        = ((CSG.tvPolys ps (CSG.tvVerts p.vertices m count).1
              (CSG.tvVerts p.vertices m count).2.2).1,
           (CSG.tvVerts p.vertices m count).2.1 ::
             (CSG.tvPolys ps (CSG.tvVerts p.vertices m count).1
               (CSG.tvVerts p.vertices m count).2.2).2.1,
           (CSG.tvPolys ps (CSG.tvVerts p.vertices m count).1
             (CSG.tvVerts p.vertices m count).2.2).2.2) := by
      simp [CSG.tvPolys]
    rw [hred]
    dsimp only
    refine ⟨ihnum, vpre.trans ihpre, ?_, ?_, ?_, ?_⟩
    · simp only [List.flatMap_cons, CSG.firstSeenAux_append]
      rw [ihfs, vfs]
    · rw [ihc, vc, List.map_cons, List.sum_cons]
      omega
    · have hhead : (CSG.tvVerts p.vertices m count).2.1
          = p.vertices.map (fun v => CSG.keyIndex
              ((CSG.tvPolys ps (CSG.tvVerts p.vertices m count).1
                (CSG.tvVerts p.vertices m count).2.2).1.map Prod.fst) (CSG.vKey v)) := by
        rw [vcell]
        refine List.map_congr_left ?_
        intro u hu
        have hst := CSG.keyIndex_of_prefix (ihpre.map Prod.fst) (vmem u hu)
        rw [hst]
      rw [List.map_cons, ← hhead, ihcell]
    · intro q hq u hu
      rcases List.mem_cons.1 hq with h | h
      · subst h
        exact (ihpre.map Prod.fst).subset (vmem u hu)
      · exact ihmem q h u hu

/-- C6: `toVerticesAndPolygons` returns `(verts, cells, count)` where `verts`
is the list of vertex-position triples deduplicated by exact equality in
first-seen order (hence without duplicates, with positional indices
`0, 1, 2, …`), each cell maps the corresponding polygon's vertices, in order,
to their index in `verts`, and `count` is the sum of the cell lengths (the
total number of vertex indices emitted). -/
theorem C6_toVerticesAndPolygons_spec (s : CSG) :
    s.toVerticesAndPolygons.1 = CSG.firstSeen (CSG.allKeys s) ∧
      s.toVerticesAndPolygons.1.Nodup ∧
      s.toVerticesAndPolygons.2.1
        = s.polygons.map (fun p => p.vertices.map fun v =>
            CSG.keyIndex s.toVerticesAndPolygons.1 (CSG.vKey v)) ∧
      s.toVerticesAndPolygons.2.2
        = (s.toVerticesAndPolygons.2.1.map List.length).sum := by
  obtain ⟨hnum, hpre, hfs, hc, hcells, hmem⟩ :=
    CSG.tvPolys_spec s.polygons [] 0 trivial
  have h1 : s.toVerticesAndPolygons.1 = (CSG.tvPolys s.polygons [] 0).1.map Prod.fst := rfl
  have h2 : s.toVerticesAndPolygons.2.1 = (CSG.tvPolys s.polygons [] 0).2.1 := rfl
  have h3 : s.toVerticesAndPolygons.2.2 = (CSG.tvPolys s.polygons [] 0).2.2 := rfl
  refine ⟨?_, ?_, ?_, ?_⟩
  · rw [h1, hfs]
    rfl
  · rw [h1, hfs]
    exact CSG.firstSeenAux_nodup _ _ List.nodup_nil
  · rw [h2, h1, hcells]
  · rw [h3, h2, hc, hcells]
    simp [List.map_map, Function.comp_def]

theorem strJoin_cons (a : String) (l : List String) :
    String.join (a :: l) = a ++ String.join l := by
  simp [String.join_eq]
  rfl

theorem strJoin_append (l1 l2 : List String) :
    String.join (l1 ++ l2) = String.join l1 ++ String.join l2 := by
  simp [String.join_eq, List.map_append, List.flatten_append]
  rfl

theorem strJoin_flatMap {α : Type} (f : α → List String) (l : List α) :
    String.join (l.flatMap f) = String.join (l.map fun a => String.join (f a)) := by
  induction l with
  | nil => rfl
  | cons a t ih =>
    rw [List.flatMap_cons, strJoin_append, List.map_cons, strJoin_cons, ih]

namespace Store

theorem preserves_refl (N : ℕ) (h : Heap) : preserves N h h :=
  ⟨le_refl _, fun _ _ => rfl⟩

theorem preserves_trans {N : ℕ} {h1 h2 h3 : Heap} (a : preserves N h1 h2)
    (b : preserves N h2 h3) : preserves N h1 h3 :=
  ⟨a.1.trans b.1, fun i hi => (b.2 i hi).trans (a.2 i hi)⟩

theorem preserves_append (N : ℕ) (h : Heap) (ext : Heap) (hN : N ≤ h.length) :
    preserves N h (h ++ ext) := by
  refine ⟨by simp, fun i hi => ?_⟩
  have : i < h.length := lt_of_lt_of_le hi hN
  simp [readP, List.getElem?_append_left this]

theorem preserves_length {N : ℕ} {h h' : Heap} (p : preserves N h h')
    (hN : N ≤ h.length) : N ≤ h'.length := hN.trans p.1

theorem preserves_set (N : ℕ) (h : Heap) (i : ℕ) (p : Polygon) (hi : N ≤ i) :
    preserves N h (writeP h i p) := by
  refine ⟨by simp [writeP], fun j hj => ?_⟩
  have hne : i ≠ j := by omega
  simp [readP, writeP, List.getElem?_set_ne hne]

theorem idsGE_nil (N : ℕ) : idsGE N [] := fun _ h => absurd h (List.not_mem_nil _)

theorem idsGE_append {N : ℕ} {l1 l2 : List ℕ} (h1 : idsGE N l1) (h2 : idsGE N l2) :
    idsGE N (l1 ++ l2) := by
  intro i hi
  rcases List.mem_append.1 hi with h | h
  · exact h1 i h
  · exact h2 i h

theorem idsGE_singleton {N i : ℕ} (h : N ≤ i) : idsGE N [i] := by
  intro j hj
  simp at hj
  omega

theorem splitPolygon_spec (u : Vector → Vector) (pl : Plane) (h : Heap) (pid N : ℕ)
    (hp : N ≤ pid) (hh : N ≤ h.length) :
    preserves N h (splitPolygon u pl h pid).1 ∧
      idsGE N (splitPolygon u pl h pid).2.1 ∧
      idsGE N (splitPolygon u pl h pid).2.2.1 ∧
      idsGE N (splitPolygon u pl h pid).2.2.2.1 ∧
      idsGE N (splitPolygon u pl h pid).2.2.2.2 := by
  unfold splitPolygon
  dsimp only
  split_ifs with h1 h2 h3 h4 h5 h6 h7 h8
  all_goals try simp only [alloc]
  all_goals refine ⟨?_, ?_, ?_, ?_, ?_⟩
  all_goals first
    | exact preserves_refl N h
    | exact preserves_append N h _ hh
    | exact (by simpa [List.append_assoc] using preserves_append N h _ hh)
    | exact idsGE_nil N
    | exact idsGE_singleton hp
    | exact idsGE_singleton hh
    | exact idsGE_singleton (by simp; omega)

theorem clipSplit_spec (u : Vector → Vector) (pl : Plane) :
    ∀ (ids : List ℕ) (h : Heap) (N : ℕ), idsGE N ids → N ≤ h.length →
      preserves N h (clipSplit u pl h ids).1 ∧
        idsGE N (clipSplit u pl h ids).2.1 ∧ idsGE N (clipSplit u pl h ids).2.2 := by
  intro ids
  induction ids with
  | nil =>
    intro h N _ _
    exact ⟨preserves_refl N h, idsGE_nil N, idsGE_nil N⟩
  | cons pid rest ih =>
    intro h N hids hh
    have hp : N ≤ pid := hids pid (by simp)
    have hrest : idsGE N rest := fun i hi => hids i (by simp [hi])
    obtain ⟨sp, scf, scb, sf, sb⟩ := splitPolygon_spec u pl h pid N hp hh
    obtain ⟨rp, rf, rb⟩ :=
      ih (splitPolygon u pl h pid).1 N hrest (preserves_length sp hh)
    simp only [clipSplit]
    exact ⟨preserves_trans sp rp, idsGE_append (idsGE_append scf sf) rf,
      idsGE_append (idsGE_append scb sb) rb⟩

theorem buildSplit_spec (u : Vector → Vector) (pl : Plane) :
    ∀ (ids : List ℕ) (h : Heap) (N : ℕ), idsGE N ids → N ≤ h.length →
      preserves N h (buildSplit u pl h ids).1 ∧
        idsGE N (buildSplit u pl h ids).2.1 ∧
        idsGE N (buildSplit u pl h ids).2.2.1 ∧
        idsGE N (buildSplit u pl h ids).2.2.2.1 ∧
        idsGE N (buildSplit u pl h ids).2.2.2.2 := by
  intro ids
  induction ids with
  | nil =>
    intro h N _ _
    exact ⟨preserves_refl N h, idsGE_nil N, idsGE_nil N, idsGE_nil N, idsGE_nil N⟩
  | cons pid rest ih =>
    intro h N hids hh
    have hp : N ≤ pid := hids pid (by simp)
    have hrest : idsGE N rest := fun i hi => hids i (by simp [hi])
    obtain ⟨sp, scf, scb, sf, sb⟩ := splitPolygon_spec u pl h pid N hp hh
    obtain ⟨rp, rcf, rcb, rf, rb⟩ :=
      ih (splitPolygon u pl h pid).1 N hrest (preserves_length sp hh)
    simp only [buildSplit]
    exact ⟨preserves_trans sp rp, idsGE_append scf rcf, idsGE_append scb rcb,
      idsGE_append sf rf, idsGE_append sb rb⟩

theorem treeGE_parts {N : ℕ} {pl : Option Plane} {polys : List ℕ}
    {fr bk : Option BSPNode} (ht : treeGE N (.mk pl polys fr bk)) :
    idsGE N polys ∧ (∀ f, fr = some f → treeGE N f) ∧
      (∀ b, bk = some b → treeGE N b) := by
  unfold treeGE at ht
  rw [allPolygons.eq_def] at ht
  dsimp only at ht
  refine ⟨fun i hi => ht i (by simp [hi]), ?_, ?_⟩
  · intro f hf
    subst hf
    intro i hi
    exact ht i (by simp [hi])
  · intro b hb
    subst hb
    intro i hi
    exact ht i (by simp [hi])

theorem treeGE_node {N : ℕ} {pl : Option Plane} {polys : List ℕ}
    {fr bk : Option BSPNode} (hp : idsGE N polys)
    (hf : ∀ f, fr = some f → treeGE N f) (hb : ∀ b, bk = some b → treeGE N b) :
    treeGE N (.mk pl polys fr bk) := by
  unfold treeGE
  rw [allPolygons.eq_def]
  dsimp only
  refine idsGE_append (idsGE_append hp ?_) ?_
  · match fr with
    | some f => exact hf f rfl
    | none => exact idsGE_nil N
  · match bk with
    | some b => exact hb b rfl
    | none => exact idsGE_nil N

theorem treeGE_empty (N : ℕ) : treeGE N emptyNode := by
  unfold treeGE emptyNode
  rw [allPolygons.eq_def]
  exact idsGE_nil N

theorem clipPolygons_spec (u : Vector → Vector) :
    ∀ (t : BSPNode) (h : Heap) (ids : List ℕ) (N : ℕ), idsGE N ids → N ≤ h.length →
      preserves N h (clipPolygons u t h ids).1 ∧ idsGE N (clipPolygons u t h ids).2
  | .mk none polys fr bk => by
    intro h ids N hids hh
    rw [clipPolygons.eq_def]
    exact ⟨preserves_refl N h, hids⟩
  | .mk (some pl) polys fr bk => by
    intro h ids N hids hh
    obtain ⟨sp, sf, sb⟩ := clipSplit_spec u pl ids h N hids hh
    have hlen1 : N ≤ (clipSplit u pl h ids).1.length := preserves_length sp hh
    rw [clipPolygons.eq_def]
    dsimp only
    cases fr with
    | some ft =>
      obtain ⟨fp, fids⟩ := clipPolygons_spec u ft (clipSplit u pl h ids).1
        (clipSplit u pl h ids).2.1 N sf hlen1
      have hlen2 : N ≤ (clipPolygons u ft (clipSplit u pl h ids).1
          (clipSplit u pl h ids).2.1).1.length := preserves_length fp hlen1
      cases bk with
      | some bt =>
        obtain ⟨bp, bids⟩ := clipPolygons_spec u bt
          (clipPolygons u ft (clipSplit u pl h ids).1 (clipSplit u pl h ids).2.1).1
          (clipSplit u pl h ids).2.2 N sb hlen2
        exact ⟨preserves_trans sp (preserves_trans fp bp), idsGE_append fids bids⟩
      | none =>
        exact ⟨preserves_trans sp fp, idsGE_append fids (idsGE_nil N)⟩
    | none =>
      cases bk with
      | some bt =>
        obtain ⟨bp, bids⟩ := clipPolygons_spec u bt (clipSplit u pl h ids).1
          (clipSplit u pl h ids).2.2 N sb hlen1
        exact ⟨preserves_trans sp bp, idsGE_append sf bids⟩
      | none =>
        exact ⟨sp, idsGE_append sf (idsGE_nil N)⟩

theorem clipTo_spec (u : Vector → Vector) :
    ∀ (t : BSPNode) (other : BSPNode) (h : Heap) (N : ℕ), treeGE N t → N ≤ h.length →
      preserves N h (clipTo u t other h).1 ∧ treeGE N (clipTo u t other h).2
  | .mk pl polys fr bk, other, h, N => by
    intro ht hh
    obtain ⟨hpolys, hfr, hbk⟩ := treeGE_parts ht
    obtain ⟨rp, rids⟩ := clipPolygons_spec u other h polys N hpolys hh
    have hlen1 : N ≤ (clipPolygons u other h polys).1.length := preserves_length rp hh
    rw [clipTo.eq_def]
    dsimp only
    cases fr with
    | some f =>
      obtain ⟨fp, ftree⟩ := clipTo_spec u f other (clipPolygons u other h polys).1 N
        (hfr f rfl) hlen1
      have hlen2 := preserves_length fp hlen1
      cases bk with
      | some b =>
        obtain ⟨bp, btree⟩ := clipTo_spec u b other
          (clipTo u f other (clipPolygons u other h polys).1).1 N (hbk b rfl) hlen2
        refine ⟨preserves_trans rp (preserves_trans fp bp), ?_⟩
        refine treeGE_node rids ?_ ?_
        · intro f' hf'
          cases hf'
          exact ftree
        · intro b' hb'
          cases hb'
          exact btree
      | none =>
        refine ⟨preserves_trans rp fp, ?_⟩
        refine treeGE_node rids ?_ ?_
        · intro f' hf'
          cases hf'
          exact ftree
        · intro b' hb'
          cases hb'
    | none =>
      cases bk with
      | some b =>
        obtain ⟨bp, btree⟩ := clipTo_spec u b other (clipPolygons u other h polys).1 N
          (hbk b rfl) hlen1
        refine ⟨preserves_trans rp bp, ?_⟩
        refine treeGE_node rids ?_ ?_
        · intro f' hf'
          cases hf'
        · intro b' hb'
          cases hb'
          exact btree
      | none =>
        refine ⟨rp, ?_⟩
        refine treeGE_node rids ?_ ?_
        · intro f' hf'
          cases hf'
        · intro b' hb'
          cases hb'

theorem flipFold_spec :
    ∀ (ids : List ℕ) (h : Heap) (N : ℕ), idsGE N ids → N ≤ h.length →
      preserves N h (ids.foldl flipStep h) := by
  intro ids
  induction ids with
  | nil => intro h N _ _; exact preserves_refl N h
  | cons i rest ih =>
    intro h N hids hh
    have hi : N ≤ i := hids i (by simp)
    have hrest : idsGE N rest := fun j hj => hids j (by simp [hj])
    have hstep : preserves N h (flipStep h i) := preserves_set N h i _ hi
    have hlen : N ≤ (flipStep h i).length := by
      simp only [flipStep, writeP, List.length_set]
      exact hh
    rw [List.foldl_cons]
    exact preserves_trans hstep (ih (flipStep h i) N hrest hlen)

theorem invert_spec :
    ∀ (t : BSPNode) (h : Heap) (N : ℕ), treeGE N t → N ≤ h.length →
      preserves N h (invert t h).1 ∧ treeGE N (invert t h).2
  | .mk pl polys fr bk, h, N => by
    intro ht hh
    obtain ⟨hpolys, hfr, hbk⟩ := treeGE_parts ht
    have h1p : preserves N h (polys.foldl flipStep h) := flipFold_spec polys h N hpolys hh
    have hlen1 := preserves_length h1p hh
    rw [invert.eq_def]
    dsimp only
    cases bk with
    | some b =>
      obtain ⟨bp, btree⟩ := invert_spec b (polys.foldl flipStep h) N (hbk b rfl) hlen1
      have hlen2 := preserves_length bp hlen1
      cases fr with
      | some f =>
        obtain ⟨fp, ftree⟩ := invert_spec f (invert b (polys.foldl flipStep h)).1 N
          (hfr f rfl) hlen2
        refine ⟨preserves_trans h1p (preserves_trans bp fp), ?_⟩
        refine treeGE_node hpolys ?_ ?_
        · intro f' hf'
          cases hf'
          exact btree
        · intro b' hb'
          cases hb'
          exact ftree
      | none =>
        refine ⟨preserves_trans h1p bp, ?_⟩
        refine treeGE_node hpolys ?_ ?_
        · intro f' hf'
          cases hf'
          exact btree
        · intro b' hb'
          cases hb'
    | none =>
      cases fr with
      | some f =>
        obtain ⟨fp, ftree⟩ := invert_spec f (polys.foldl flipStep h) N (hfr f rfl) hlen1
        refine ⟨preserves_trans h1p fp, ?_⟩
        refine treeGE_node hpolys ?_ ?_
        · intro f' hf'
          cases hf'
        · intro b' hb'
          cases hb'
          exact ftree
      | none =>
        refine ⟨h1p, ?_⟩
        refine treeGE_node hpolys ?_ ?_
        · intro f' hf'
          cases hf'
        · intro b' hb'
          cases hb'

theorem build_spec (u : Vector → Vector) :
    ∀ (fuel : ℕ) (t : BSPNode) (h : Heap) (ids : List ℕ) (N : ℕ),
      treeGE N t → idsGE N ids → N ≤ h.length →
      preserves N h (build u fuel t h ids).1 ∧ treeGE N (build u fuel t h ids).2 := by
  intro fuel
  induction fuel with
  | zero =>
    intro t h ids N ht _ _
    rw [build.eq_def]
    exact ⟨preserves_refl N h, ht⟩
  | succ fuel ih =>
    intro t h ids N ht hids hh
    cases ids with
    | nil =>
      obtain ⟨pl, polys, fr, bk⟩ := t
      rw [build.eq_def]
      dsimp only
      exact ⟨preserves_refl N h, ht⟩
    | cons pid rest =>
      obtain ⟨pl, polys, fr, bk⟩ := t
      obtain ⟨hpolys, hfr, hbk⟩ := treeGE_parts ht
      clear ht
      rw [build.eq_def]
      dsimp only
      obtain ⟨sp, scf, scb, sf, sb⟩ := buildSplit_spec u
        (match pl with | some q => q | none => (readP h pid).plane)
        (pid :: rest) h N hids hh
      have hlen1 := preserves_length sp hh
      have hftree : treeGE N (fr.getD emptyNode) := by
        cases fr with
        | some f => exact hfr f rfl
        | none => exact treeGE_empty N
      have hbtree : treeGE N (bk.getD emptyNode) := by
        cases bk with
        | some b => exact hbk b rfl
        | none => exact treeGE_empty N
      split_ifs with hfe hbe hbe
      · -- both front and back buckets empty
        refine ⟨sp, ?_⟩
        refine treeGE_node (idsGE_append (idsGE_append hpolys scf) scb) ?_ ?_
        · intro f' hf'
          exact hfr f' hf'
        · intro b' hb'
          exact hbk b' hb'
      · -- back bucket empty, front bucket nonempty
        obtain ⟨fp, ftree⟩ := ih (fr.getD emptyNode)
          (buildSplit u _ h (pid :: rest)).1 _ N hftree sf hlen1
        refine ⟨preserves_trans sp fp, ?_⟩
        refine treeGE_node (idsGE_append (idsGE_append hpolys scf) scb) ?_ ?_
        · intro f' hf'
          cases hf'
          exact ftree
        · intro b' hb'
          exact hbk b' hb'
      · -- back bucket nonempty, front bucket empty
        obtain ⟨bp, btree⟩ := ih (bk.getD emptyNode)
          (buildSplit u _ h (pid :: rest)).1 _ N hbtree sb hlen1
        refine ⟨preserves_trans sp bp, ?_⟩
        refine treeGE_node (idsGE_append (idsGE_append hpolys scf) scb) ?_ ?_
        · intro f' hf'
          exact hfr f' hf'
        · intro b' hb'
          cases hb'
          exact btree
      · -- both nonempty
        obtain ⟨fp, ftree⟩ := ih (fr.getD emptyNode)
          (buildSplit u _ h (pid :: rest)).1 _ N hftree sf hlen1
        have hlen2 := preserves_length fp hlen1
        obtain ⟨bp, btree⟩ := ih (bk.getD emptyNode) _ _ N hbtree sb hlen2
        refine ⟨preserves_trans sp (preserves_trans fp bp), ?_⟩
        refine treeGE_node (idsGE_append (idsGE_append hpolys scf) scb) ?_ ?_
        · intro f' hf'
          cases hf'
          exact ftree
        · intro b' hb'
          cases hb'
          exact btree

theorem cloneList_spec :
    ∀ (ids : List ℕ) (h : Heap) (N : ℕ), N ≤ h.length →
      preserves N h (cloneList h ids).1 ∧ idsGE N (cloneList h ids).2 := by
  intro ids
  induction ids with
  | nil => intro h N _; exact ⟨preserves_refl N h, idsGE_nil N⟩
  | cons i rest ih =>
    intro h N hh
    simp only [cloneList, alloc]
    obtain ⟨rp, rids⟩ := ih (h ++ [Polygon.clone (readP h i)]) N
      (by simp; omega)
    refine ⟨preserves_trans (preserves_append N h _ hh) rp, ?_⟩
    intro j hj
    rcases List.mem_cons.1 hj with hj | hj
    · omega
    · exact rids j hj
theorem union_preserves (u : Vector → Vector) (fuel : ℕ) (h : Heap) (a b : CSG) :
    preserves h.length h (CSG.union u fuel h a b).1 := by
  unfold CSG.union CSG.clone bspNode
  dsimp only
  obtain ⟨p1, i1⟩ := cloneList_spec a.polygons h h.length (le_refl _)
  have l1 := preserves_length p1 (le_refl _)
  obtain ⟨p2, g1⟩ := build_spec u fuel emptyNode _ _ h.length (treeGE_empty _) i1 l1
  have l2 := preserves_length p2 l1
  obtain ⟨p3, i2⟩ := cloneList_spec b.polygons _ h.length l2
  have l3 := preserves_length p3 l2
  obtain ⟨p4, g2⟩ := build_spec u fuel emptyNode _ _ h.length (treeGE_empty _) i2 l3
  have l4 := preserves_length p4 l3
  obtain ⟨p5, g3⟩ := clipTo_spec u _ _ _ h.length g1 l4
  have l5 := preserves_length p5 l4
  obtain ⟨p6, g4⟩ := clipTo_spec u _ _ _ h.length g2 l5
  have l6 := preserves_length p6 l5
  obtain ⟨p7, g5⟩ := invert_spec _ _ h.length g4 l6
  have l7 := preserves_length p7 l6
  obtain ⟨p8, g6⟩ := clipTo_spec u _ _ _ h.length g5 l7
  have l8 := preserves_length p8 l7
  obtain ⟨p9, g7⟩ := invert_spec _ _ h.length g6 l8
  have l9 := preserves_length p9 l8
  obtain ⟨p10, _⟩ := build_spec u fuel _ _ _ h.length g3 g7 l9
  exact preserves_trans p1 (preserves_trans p2 (preserves_trans p3
    (preserves_trans p4 (preserves_trans p5 (preserves_trans p6
      (preserves_trans p7 (preserves_trans p8 (preserves_trans p9 p10))))))))

theorem subtract_preserves (u : Vector → Vector) (fuel : ℕ) (h : Heap) (a b : CSG) :
    preserves h.length h (CSG.subtract u fuel h a b).1 := by
  unfold CSG.subtract CSG.clone bspNode
  dsimp only
  obtain ⟨p1, i1⟩ := cloneList_spec a.polygons h h.length (le_refl _)
  have l1 := preserves_length p1 (le_refl _)
  obtain ⟨p2, g1⟩ := build_spec u fuel emptyNode _ _ h.length (treeGE_empty _) i1 l1
  have l2 := preserves_length p2 l1
  obtain ⟨p3, i2⟩ := cloneList_spec b.polygons _ h.length l2
  have l3 := preserves_length p3 l2
  obtain ⟨p4, g2⟩ := build_spec u fuel emptyNode _ _ h.length (treeGE_empty _) i2 l3
  have l4 := preserves_length p4 l3
  obtain ⟨p5, g3⟩ := invert_spec _ _ h.length g1 l4
  have l5 := preserves_length p5 l4
  obtain ⟨p6, g4⟩ := clipTo_spec u _ _ _ h.length g3 l5
  have l6 := preserves_length p6 l5
  obtain ⟨p7, g5⟩ := clipTo_spec u _ _ _ h.length g2 l6
  have l7 := preserves_length p7 l6
  obtain ⟨p8, g6⟩ := invert_spec _ _ h.length g5 l7
  have l8 := preserves_length p8 l7
  obtain ⟨p9, g7⟩ := clipTo_spec u _ _ _ h.length g6 l8
  have l9 := preserves_length p9 l8
  obtain ⟨p10, g8⟩ := invert_spec _ _ h.length g7 l9
  have l10 := preserves_length p10 l9
  obtain ⟨p11, g9⟩ := build_spec u fuel _ _ _ h.length g4 g8 l10
  have l11 := preserves_length p11 l10
  obtain ⟨p12, _⟩ := invert_spec _ _ h.length g9 l11
  exact preserves_trans p1 (preserves_trans p2 (preserves_trans p3
    (preserves_trans p4 (preserves_trans p5 (preserves_trans p6
      (preserves_trans p7 (preserves_trans p8 (preserves_trans p9
        (preserves_trans p10 (preserves_trans p11 p12))))))))))

theorem intersect_preserves (u : Vector → Vector) (fuel : ℕ) (h : Heap) (a b : CSG) :
    preserves h.length h (CSG.intersect u fuel h a b).1 := by
  unfold CSG.intersect CSG.clone bspNode
  dsimp only
  obtain ⟨p1, i1⟩ := cloneList_spec a.polygons h h.length (le_refl _)
  have l1 := preserves_length p1 (le_refl _)
  obtain ⟨p2, g1⟩ := build_spec u fuel emptyNode _ _ h.length (treeGE_empty _) i1 l1
  have l2 := preserves_length p2 l1
  obtain ⟨p3, i2⟩ := cloneList_spec b.polygons _ h.length l2
  have l3 := preserves_length p3 l2
  obtain ⟨p4, g2⟩ := build_spec u fuel emptyNode _ _ h.length (treeGE_empty _) i2 l3
  have l4 := preserves_length p4 l3
  obtain ⟨p5, g3⟩ := invert_spec _ _ h.length g1 l4
  have l5 := preserves_length p5 l4
  obtain ⟨p6, g4⟩ := clipTo_spec u _ _ _ h.length g2 l5
  have l6 := preserves_length p6 l5
  obtain ⟨p7, g5⟩ := invert_spec _ _ h.length g4 l6
  have l7 := preserves_length p7 l6
  obtain ⟨p8, g6⟩ := clipTo_spec u _ _ _ h.length g3 l7
  have l8 := preserves_length p8 l7
  obtain ⟨p9, g7⟩ := clipTo_spec u _ _ _ h.length g5 l8
  have l9 := preserves_length p9 l8
  obtain ⟨p10, g8⟩ := build_spec u fuel _ _ _ h.length g6 g7 l9
  have l10 := preserves_length p10 l9
  obtain ⟨p11, _⟩ := invert_spec _ _ h.length g8 l10
  exact preserves_trans p1 (preserves_trans p2 (preserves_trans p3
    (preserves_trans p4 (preserves_trans p5 (preserves_trans p6
      (preserves_trans p7 (preserves_trans p8 (preserves_trans p9
        (preserves_trans p10 p11)))))))))


theorem cloneList_nil (h : Heap) : cloneList h [] = (h, []) := rfl

theorem clipPolygons_emptyNode (u : Vector → Vector) (h : Heap) (ids : List ℕ) :
    clipPolygons u emptyNode h ids = (h, ids) := by
  unfold emptyNode
  rw [clipPolygons.eq_def]

theorem clipPolygons_nil (u : Vector → Vector) :
    ∀ (t : BSPNode) (h : Heap), clipPolygons u t h [] = (h, [])
  | .mk none polys fr bk, h => by
    rw [clipPolygons.eq_def]
  | .mk (some pl) polys fr bk, h => by
    rw [clipPolygons.eq_def]
    dsimp only
    have hs : clipSplit u pl h [] = (h, [], []) := rfl
    rw [hs]
    cases fr with
    | some ft =>
      dsimp only
      rw [clipPolygons_nil u ft h]
      cases bk with
      | some bt =>
        dsimp only
        rw [clipPolygons_nil u bt h]
        rfl
      | none => rfl
    | none =>
      dsimp only
      cases bk with
      | some bt =>
        dsimp only
        rw [clipPolygons_nil u bt h]
        rfl
      | none => rfl

theorem clipTo_emptyOther (u : Vector → Vector) :
    ∀ (t : BSPNode) (h : Heap), clipTo u t emptyNode h = (h, t)
  | .mk pl polys fr bk, h => by
    rw [clipTo.eq_def]
    dsimp only
    rw [clipPolygons_emptyNode u h polys]
    cases fr with
    | some f =>
      dsimp only
      rw [clipTo_emptyOther u f h]
      cases bk with
      | some b =>
        dsimp only
        rw [clipTo_emptyOther u b h]
      | none => rfl
    | none =>
      dsimp only
      cases bk with
      | some b =>
        dsimp only
        rw [clipTo_emptyOther u b h]
      | none => rfl

theorem clipTo_emptySelf (u : Vector → Vector) (t : BSPNode) (h : Heap) :
    clipTo u emptyNode t h = (h, emptyNode) := by
  unfold emptyNode
  rw [clipTo.eq_def]
  dsimp only
  rw [clipPolygons_nil u t h]

theorem invert_empty (h : Heap) : invert emptyNode h = (h, emptyNode) := by
  unfold emptyNode
  rw [invert.eq_def]
  rfl

theorem build_nil (u : Vector → Vector) (fuel : ℕ) (t : BSPNode) (h : Heap) :
    build u fuel t h [] = (h, t) := by
  obtain ⟨pl, polys, fr, bk⟩ := t
  cases fuel with
  | zero => rw [build.eq_def]
  | succ fuel => rw [build.eq_def]

theorem allPolygons_empty : allPolygons emptyNode = [] := by
  unfold emptyNode
  rw [allPolygons.eq_def]
  rfl

theorem invert_decomp :
    ∀ (t : BSPNode) (h : Heap),
      invert t h = ((invOrder t).foldl flipStep h, invTree t)
  | .mk pl polys fr bk, h => by
    rw [invert.eq_def, invOrder.eq_def, invTree.eq_def]
    dsimp only
    rw [List.foldl_append, List.foldl_append]
    cases bk with
    | some b =>
      dsimp only
      rw [invert_decomp b (polys.foldl flipStep h)]
      cases fr with
      | some f =>
        dsimp only
        rw [invert_decomp f ((invOrder b).foldl flipStep (polys.foldl flipStep h))]
      | none => rfl
    | none =>
      dsimp only
      cases fr with
      | some f =>
        dsimp only
        rw [invert_decomp f (polys.foldl flipStep h)]
        rfl
      | none => rfl

theorem invTree_mk (pl : Option Plane) (polys : List ℕ) (fr bk : Option BSPNode) :
    invTree (.mk pl polys fr bk)
      = .mk (pl.map Plane.flip) polys
          (match bk with | some b => some (invTree b) | none => none)
          (match fr with | some f => some (invTree f) | none => none) := by
  rw [invTree.eq_def]

theorem invOrder_mk (pl : Option Plane) (polys : List ℕ) (fr bk : Option BSPNode) :
    invOrder (.mk pl polys fr bk)
      = polys ++ (match bk with | some b => invOrder b | none => [])
          ++ (match fr with | some f => invOrder f | none => []) := by
  rw [invOrder.eq_def]

theorem map_flip_map_flip (pl : Option Plane) :
    (pl.map Plane.flip).map Plane.flip = pl := by
  cases pl with
  | some q => simp [plane_flip_invol]
  | none => rfl

theorem invTree_invol : ∀ (t : BSPNode), invTree (invTree t) = t
  | .mk pl polys fr bk => by
    cases fr with
    | some f =>
      cases bk with
      | some b =>
        rw [invTree_mk]
        dsimp only
        rw [invTree_mk]
        dsimp only
        rw [invTree_invol f, invTree_invol b, map_flip_map_flip]
      | none =>
        rw [invTree_mk]
        dsimp only
        rw [invTree_mk]
        dsimp only
        rw [invTree_invol f, map_flip_map_flip]
    | none =>
      cases bk with
      | some b =>
        rw [invTree_mk]
        dsimp only
        rw [invTree_mk]
        dsimp only
        rw [invTree_invol b, map_flip_map_flip]
      | none =>
        rw [invTree_mk]
        dsimp only
        rw [invTree_mk]
        dsimp only
        rw [map_flip_map_flip]

theorem invOrder_invTree :
    ∀ (t : BSPNode), List.Perm (invOrder (invTree t)) (invOrder t)
  | .mk pl polys fr bk => by
    rw [invTree_mk, invOrder_mk, invOrder_mk]
    have hf : List.Perm
        (match (match fr with | some f => some (invTree f) | none => none) with
          | some b => invOrder b | none => [])
        (match fr with | some f => invOrder f | none => ([] : List ℕ)) := by
      cases fr with
      | some f => exact invOrder_invTree f
      | none => exact List.Perm.refl _
    have hb : List.Perm
        (match (match bk with | some b => some (invTree b) | none => none) with
          | some b => invOrder b | none => [])
        (match bk with | some b => invOrder b | none => ([] : List ℕ)) := by
      cases bk with
      | some b => exact invOrder_invTree b
      | none => exact List.Perm.refl _
    rw [List.append_assoc, List.append_assoc]
    exact List.Perm.append_left polys ((hf.append hb).trans List.perm_append_comm)

theorem readP_set_ne (h : Heap) {i j : ℕ} (p : Polygon) (hij : i ≠ j) :
    readP (writeP h i p) j = readP h j := by
  simp [readP, writeP, List.getElem?_set_ne hij]

theorem set_readP_self (h : Heap) (i : ℕ) : writeP h i (readP h i) = h := by
  by_cases hi : i < h.length
  · refine List.ext_getElem? fun j => ?_
    by_cases hj : i = j
    · subst hj
      rw [writeP, List.getElem?_set_self hi]
      simp [readP, List.getElem?_eq_getElem hi]
    · rw [writeP, List.getElem?_set_ne hj]
  · rw [writeP, List.set_eq_of_length_le (by omega)]

theorem flipStep_invol (h : Heap) (i : ℕ) : flipStep (flipStep h i) i = h := by
  by_cases hi : i < h.length
  · unfold flipStep
    have hr : readP (writeP h i (Polygon.flip (readP h i))) i
        = Polygon.flip (readP h i) := by
      simp [readP, writeP, List.getElem?_set_self hi]
    rw [hr, polygon_flip_invol, writeP, writeP, List.set_set]
    have : h.set i (readP h i) = h := set_readP_self h i
    simpa [writeP] using this
  · unfold flipStep writeP
    have hle : h.length ≤ i := by omega
    have h1 : h.set i (Polygon.flip (readP h i)) = h := List.set_eq_of_length_le hle
    rw [h1, h1]

theorem flipStep_comm (h : Heap) (i j : ℕ) :
    flipStep (flipStep h i) j = flipStep (flipStep h j) i := by
  by_cases hij : i = j
  · subst hij
    rfl
  · unfold flipStep
    rw [readP_set_ne h _ hij, readP_set_ne h _ (fun hh => hij hh.symm)]
    unfold writeP
    exact List.set_comm _ _ h hij

theorem foldl_flipStep_comm (l : List ℕ) (h : Heap) (i : ℕ) :
    l.foldl flipStep (flipStep h i) = flipStep (l.foldl flipStep h) i := by
  induction l generalizing h with
  | nil => rfl
  | cons x xs ih =>
    rw [List.foldl_cons, List.foldl_cons, flipStep_comm, ih]

theorem foldl_flipStep_middle (u v : List ℕ) (x : ℕ) (h : Heap) :
    ((u ++ x :: v).foldl flipStep h) = ((u ++ v).foldl flipStep (flipStep h x)) := by
  rw [List.foldl_append, List.foldl_cons, List.foldl_append, foldl_flipStep_comm,
    foldl_flipStep_comm, foldl_flipStep_comm]

theorem foldl_flipStep_cancel :
    ∀ (l1 l2 : List ℕ) (h : Heap), List.Perm l1 l2 →
      ((l1 ++ l2).foldl flipStep h) = h := by
  intro l1
  induction l1 with
  | nil =>
    intro l2 h hp
    rw [hp.symm.eq_nil]
    rfl
  | cons x xs ih =>
    intro l2 h hp
    have hx : x ∈ l2 := hp.subset (by simp)
    obtain ⟨u, v, rfl⟩ := List.append_of_mem hx
    have hperm : List.Perm xs (u ++ v) :=
      (hp.trans List.perm_middle).cons_inv
    rw [List.cons_append, List.foldl_cons]
    have hassoc : xs ++ (u ++ x :: v) = (xs ++ u) ++ x :: v := by
      rw [List.append_assoc]
    rw [hassoc, foldl_flipStep_middle (xs ++ u) v x (flipStep h x), flipStep_invol,
      List.append_assoc]
    exact ih (u ++ v) h hperm

theorem union_emptyOperand (u : Vector → Vector) (fuel : ℕ) (h : Heap) (a : CSG) :
    CSG.union u fuel h a ⟨[]⟩
      = ((bspNode u fuel (cloneList h a.polygons).1 (cloneList h a.polygons).2).1,
        CSG.fromPolygons (allPolygons
          (bspNode u fuel (cloneList h a.polygons).1 (cloneList h a.polygons).2).2)) := by
  unfold CSG.union CSG.clone bspNode
  dsimp only
  simp only [cloneList_nil, build_nil, clipTo_emptyOther, clipTo_emptySelf,
    invert_empty, allPolygons_empty]

theorem invert_invert (t : BSPNode) (h : Heap) :
    invert (invert t h).2 (invert t h).1 = (h, t) := by
  rw [invert_decomp, invert_decomp]
  dsimp only
  rw [invTree_invol]
  have hheap : ((invOrder (invTree t)).foldl flipStep
      ((invOrder t).foldl flipStep h)) = h := by
    rw [← List.foldl_append]
    exact foldl_flipStep_cancel (invOrder t) (invOrder (invTree t)) h
      (invOrder_invTree t).symm
  rw [hheap]

theorem subtract_emptyOperand (u : Vector → Vector) (fuel : ℕ) (h : Heap) (a : CSG) :
    CSG.subtract u fuel h a ⟨[]⟩
      = ((bspNode u fuel (cloneList h a.polygons).1 (cloneList h a.polygons).2).1,
        CSG.fromPolygons (allPolygons
          (bspNode u fuel (cloneList h a.polygons).1 (cloneList h a.polygons).2).2)) := by
  unfold CSG.subtract CSG.clone bspNode
  dsimp only
  simp only [cloneList_nil, build_nil, clipTo_emptyOther, clipTo_emptySelf,
    invert_empty, allPolygons_empty, invert_invert]

theorem intersect_emptyOperand (u : Vector → Vector) (fuel : ℕ) (h : Heap) (a : CSG) :
    CSG.intersect u fuel h a ⟨[]⟩
      = ((bspNode u fuel (cloneList h a.polygons).1 (cloneList h a.polygons).2).1,
        CSG.fromPolygons (allPolygons
          (bspNode u fuel (cloneList h a.polygons).1 (cloneList h a.polygons).2).2)) := by
  unfold CSG.intersect CSG.clone bspNode
  dsimp only
  simp only [cloneList_nil, build_nil, clipTo_emptyOther, clipTo_emptySelf,
    invert_empty, allPolygons_empty, invert_invert]

end Store

/-- C5 (amended): `fromPolygons([])` produces an empty solid, and a Boolean
operation with an empty second operand returns the first operand's polygons
redistributed through its own BSP tree: `A.union(∅)`, `A.subtract(∅)` and
`A.intersect(∅)` all return exactly
`Solid(BSPNode(clone of A.polys).allPolygons())` — the clone's polygons
possibly split and reordered by A's own tree, not an exact clone of A's list,
and for `intersect` not an empty solid. -/
theorem C5_empty_operand_amended (u : Vector → Vector) (fuel : ℕ)
    (h : Store.Heap) (a : Store.CSG) :
    (CSG.fromPolygons ([] : List Polygon)).polygons = [] ∧
      Store.CSG.union u fuel h a ⟨[]⟩
        = ((Store.bspNode u fuel (Store.cloneList h a.polygons).1
              (Store.cloneList h a.polygons).2).1,
           Store.CSG.fromPolygons (Store.allPolygons
             (Store.bspNode u fuel (Store.cloneList h a.polygons).1
               (Store.cloneList h a.polygons).2).2)) ∧
      Store.CSG.subtract u fuel h a ⟨[]⟩
        = ((Store.bspNode u fuel (Store.cloneList h a.polygons).1
              (Store.cloneList h a.polygons).2).1,
           Store.CSG.fromPolygons (Store.allPolygons
             (Store.bspNode u fuel (Store.cloneList h a.polygons).1
               (Store.cloneList h a.polygons).2).2)) ∧
      Store.CSG.intersect u fuel h a ⟨[]⟩
        = ((Store.bspNode u fuel (Store.cloneList h a.polygons).1
              (Store.cloneList h a.polygons).2).1,
           Store.CSG.fromPolygons (Store.allPolygons
             (Store.bspNode u fuel (Store.cloneList h a.polygons).1
               (Store.cloneList h a.polygons).2).2)) :=
  ⟨rfl, Store.union_emptyOperand u fuel h a, Store.subtract_emptyOperand u fuel h a,
    Store.intersect_emptyOperand u fuel h a⟩

/-- C5 (counterexample): on the three-triangle solid whose polygon list is
ordered (coplanar-with-root, behind-root, in-front-of-root),
`A.intersect(∅)` returns A's three polygons — not an empty solid — and
`A.union(∅)` and `A.subtract(∅)` return the polygons reordered by A's own
BSP tree (coplanar, front, back), which is not value-equal to a clone of A's
polygon list. -/
theorem C5_empty_operand_claim_counterexample :
    Store.polyValues
        (Store.CSG.intersect (fun v => v) 4 solidThree.polygons ⟨[0, 1, 2]⟩ ⟨[]⟩).1
        (Store.CSG.intersect (fun v => v) 4 solidThree.polygons ⟨[0, 1, 2]⟩ ⟨[]⟩).2
      ≠ [] ∧
    Store.polyValues
        (Store.CSG.union (fun v => v) 4 solidThree.polygons ⟨[0, 1, 2]⟩ ⟨[]⟩).1
        (Store.CSG.union (fun v => v) 4 solidThree.polygons ⟨[0, 1, 2]⟩ ⟨[]⟩).2
      ≠ Store.polyValues solidThree.polygons ⟨[0, 1, 2]⟩ ∧
    Store.polyValues
        (Store.CSG.subtract (fun v => v) 4 solidThree.polygons ⟨[0, 1, 2]⟩ ⟨[]⟩).1
        (Store.CSG.subtract (fun v => v) 4 solidThree.polygons ⟨[0, 1, 2]⟩ ⟨[]⟩).2
      ≠ Store.polyValues solidThree.polygons ⟨[0, 1, 2]⟩ := by
  rw [Store.intersect_emptyOperand, Store.union_emptyOperand, Store.subtract_emptyOperand]
  norm_num [Store.bspNode, Store.build, Store.buildSplit, Store.splitPolygon,
    Store.classify, Store.splitVerts, Store.cloneList, Store.alloc, Store.readP,
    Store.polyValues, Store.allPolygons.eq_def, Store.emptyNode, Store.COPLANAR,
    Store.FRONT, Store.BACK, Store.SPANNING, Plane.EPSILON, Vector.dot,
    Polygon.clone, Vertex.clone, triAt, solidThree, Store.CSG.fromPolygons,
    defaultPolygon]
  all_goals simp

/-- C3: after `union` (and likewise `subtract` and `intersect`), the polygon
objects of both operands are exactly equal to their pre-call snapshots: the
operations build their BSP trees only from freshly allocated deep clones and
write only at addresses allocated during the call, so every pre-existing heap
object — in particular every polygon of `A` and `B` — is untouched. -/
theorem C3_boolean_ops_do_not_mutate_operands (u : Vector → Vector) (fuel : ℕ)
    (h : Store.Heap) (a b : Store.CSG)
    (ha : ∀ i ∈ a.polygons, i < h.length) (hb : ∀ i ∈ b.polygons, i < h.length) :
    (Store.polyValues (Store.CSG.union u fuel h a b).1 a = Store.polyValues h a ∧
      Store.polyValues (Store.CSG.union u fuel h a b).1 b = Store.polyValues h b) ∧
    (Store.polyValues (Store.CSG.subtract u fuel h a b).1 a = Store.polyValues h a ∧
      Store.polyValues (Store.CSG.subtract u fuel h a b).1 b = Store.polyValues h b) ∧
    (Store.polyValues (Store.CSG.intersect u fuel h a b).1 a = Store.polyValues h a ∧
      Store.polyValues (Store.CSG.intersect u fuel h a b).1 b = Store.polyValues h b) := by
  have key : ∀ h' : Store.Heap, Store.preserves h.length h h' →
      Store.polyValues h' a = Store.polyValues h a ∧
        Store.polyValues h' b = Store.polyValues h b := by
    intro h' hp
    constructor
    · exact List.map_congr_left fun i hi => hp.2 i (ha i hi)
    · exact List.map_congr_left fun i hi => hp.2 i (hb i hi)
  exact ⟨key _ (Store.union_preserves u fuel h a b),
    key _ (Store.subtract_preserves u fuel h a b),
    key _ (Store.intersect_preserves u fuel h a b)⟩

/-- Witness for C3 at a concrete input: two solids both referring to the one
triangle on a one-object heap, with any fuel. -/
theorem C3_boolean_ops_do_not_mutate_operands_witness :
    (Store.polyValues (Store.CSG.union (fun v => v) 2 [triAt 0] ⟨[0]⟩ ⟨[0]⟩).1 ⟨[0]⟩
        = Store.polyValues [triAt 0] ⟨[0]⟩ ∧
      Store.polyValues (Store.CSG.union (fun v => v) 2 [triAt 0] ⟨[0]⟩ ⟨[0]⟩).1 ⟨[0]⟩
        = Store.polyValues [triAt 0] ⟨[0]⟩) ∧
    (Store.polyValues (Store.CSG.subtract (fun v => v) 2 [triAt 0] ⟨[0]⟩ ⟨[0]⟩).1 ⟨[0]⟩
        = Store.polyValues [triAt 0] ⟨[0]⟩ ∧
      Store.polyValues (Store.CSG.subtract (fun v => v) 2 [triAt 0] ⟨[0]⟩ ⟨[0]⟩).1 ⟨[0]⟩
        = Store.polyValues [triAt 0] ⟨[0]⟩) ∧
    (Store.polyValues (Store.CSG.intersect (fun v => v) 2 [triAt 0] ⟨[0]⟩ ⟨[0]⟩).1 ⟨[0]⟩
        = Store.polyValues [triAt 0] ⟨[0]⟩ ∧
      Store.polyValues (Store.CSG.intersect (fun v => v) 2 [triAt 0] ⟨[0]⟩ ⟨[0]⟩).1 ⟨[0]⟩
        = Store.polyValues [triAt 0] ⟨[0]⟩) :=
  C3_boolean_ops_do_not_mutate_operands (fun v => v) 2 [triAt 0] ⟨[0]⟩ ⟨[0]⟩
    (by decide) (by decide)

/-- C7 (amended): the file content written by `saveVTK` is the four header
lines, the `POINTS` section and the `POLYGONS` section as the claim says,
except that each per-cell count and index is written as `'{} \n'` — the
number followed by a space and then the newline — rather than the claim's
`'k\n i_1\n … i_k\n'` record shape. -/
theorem C7_saveVTK_content_amended (fmt : ℚ → String) (s : CSG) :
    CSG.saveVTKContent fmt s = CSG.vtkAmendedContent fmt s := by
  unfold CSG.saveVTKContent CSG.saveVTKWrites CSG.vtkAmendedContent
  rw [strJoin_append, strJoin_append, strJoin_append, strJoin_append]
  rw [strJoin_flatMap]
  have hrec : ∀ cell : List ℕ,
      String.join ((toString cell.length ++ " \n")
          :: cell.map fun i => toString i ++ " \n")
        = CSG.vtkActualRecord cell := by
    intro cell
    rw [strJoin_cons]
    unfold CSG.vtkActualRecord
    rw [String.append_assoc]
  simp only [hrec]
  simp only [strJoin_cons, String.join]
  simp [String.append_assoc]
  have hh : ("# vtk DataFile Version 3.0\npycsg output\nASCII\nDATASET POLYDATA\nPOINTS "
        : String)
      = "# vtk DataFile Version 3.0\npycsg output\nASCII\nDATASET POLYDATA\n"
        ++ "POINTS " := rfl
  rw [hh, String.append_assoc]

/-- C7 (counterexample): on the one-triangle solid, the content `saveVTK`
writes differs from the claim's literally-read record format
`'k\n i_1\n i_2\n ... i_k\n'`: the code writes `'3 \n0 \n1 \n2 \n'`
(each number followed by a space and a newline), not `'3\n 0\n 1\n 2\n'`. -/
theorem C7_saveVTK_claim_format_counterexample :
    CSG.saveVTKContent (fun q => toString q.num) ⟨[triAt 0]⟩
      ≠ CSG.vtkClaimContent (fun q => toString q.num) ⟨[triAt 0]⟩ := by
  decide

/-- C1: in Python 3 the statement `map(lambda p: p.flip(), csg.polygons)` in
`CSG.inverse` builds a lazy iterator that is immediately discarded, so no
polygon is ever flipped: on the failing input (a solid consisting of one
triangle) `inverse` returns the polygons unflipped, although flipping that
triangle would change it — contradicting the claim (and the method's own
docstring "solid and empty space switched"). -/
theorem C1_inverse_returns_unflipped_clone :
    (CSG.inverse ⟨[triAt 0]⟩).polygons = [triAt 0] ∧
      Polygon.flip (triAt 0) ≠ triAt 0 ∧
      (CSG.inverse ⟨[triAt 0]⟩).polygons ≠ (CSG.inverseDocumented ⟨[triAt 0]⟩).polygons := by
  refine ⟨by decide, by decide, by decide⟩

/-- C4: `A.inverse().inverse()` has a polygon list value-equal to `A`'s.
(As the code stands, `inverse` returns an unflipped deep clone — see C1 —
and deep-cloning twice is the identity on values; the claim's conclusion
holds for every solid.) -/
theorem C4_double_inverse (s : CSG) : s.inverse.inverse.polygons = s.polygons := by
  simp [CSG.inverse, CSG.clone, Polygon.map_clone_eq]

/-- C2: `union` performs exactly the spec's sequence — clone both operand
polygon lists, build the trees from the clones, then `a.clipTo(b);
b.clipTo(a); b.invert(); b.clipTo(a); b.invert(); a.build(b.allPolygons())`,
returning a solid made from `a.allPolygons()` — for every normalisation
function, fuel, heap and pair of operands: the code's definition and the
spec's step-for-step sequence are one and the same function. -/
theorem C2_union_refines_spec (unitFn : Vector → Vector) (fuel : ℕ)
    (h : Store.Heap) (a b : Store.CSG) :
    Store.CSG.union unitFn fuel h a b = Store.unionSpec unitFn fuel h a b := rfl

/-- C9: `fromPolygons` stores the caller's address list itself and
`toPolygons` returns it, so the round trip is the identity on the address
list, and a later in-place mutation of a polygon object reachable from that
list is visible through the solid (no cloning anywhere on this path). -/
theorem C9_fromPolygons_toPolygons_aliasing (ids : List ℕ) (h : Store.Heap)
    (i : ℕ) (v : Polygon) (hmem : i ∈ ids) (hlen : i < h.length) :
    (Store.CSG.fromPolygons ids).toPolygons = ids ∧
      Store.readP (Store.writeP h i v) i = v ∧
      v ∈ ((Store.CSG.fromPolygons ids).toPolygons).map (Store.readP (Store.writeP h i v)) := by
  refine ⟨rfl, ?_, ?_⟩
  · simp [Store.readP, Store.writeP, List.getElem?_set_eq hlen]
  · refine List.mem_map.2 ⟨i, hmem, ?_⟩
    simp [Store.readP, Store.writeP, List.getElem?_set_eq hlen]

/-- C8: `CSG.sphere` with the default tessellation `slices = 16`,
`stacks = 8` produces exactly `16 * 8 = 128` polygons — one per
(slice, stack) pair — for every normalisation function, every model of the
trigonometric functions and of π, and every center and radius. -/
theorem C8_sphere_polygon_count (unitFn : Vector → Vector) (cosF sinF : ℚ → ℚ)
    (piF : ℚ) (c : Vector) (r : ℚ) :
    (CSG.sphere unitFn cosF sinF piF c r 16 8).polygons.length = 128 := by
  simp [CSG.sphere, CSG.fromPolygons, List.length_flatMap, Function.comp_def,
    List.map_map]

/-- C10: `translate(d)` maps each polygon to the same polygon with every
vertex position shifted by `d`, the vertex normals untouched and the stored
plane untouched; consequently a vertex that satisfied its polygon's stored
plane equation no longer satisfies it whenever `n · d ≠ 0` (the plane is
stale after translation). -/
theorem C10_translate_shifts_pos_keeps_plane (s : CSG) (disp : ℚ × ℚ × ℚ) :
    (s.translate disp).polygons = s.polygons.map (fun p =>
        { p with vertices := p.vertices.map fun v =>
            { v with pos := v.pos.plus ⟨disp.1, disp.2.1, disp.2.2⟩ } }) ∧
      ∀ p ∈ s.polygons, ∀ v ∈ p.vertices,
        p.plane.normal.dot v.pos = p.plane.w →
        p.plane.normal.dot ⟨disp.1, disp.2.1, disp.2.2⟩ ≠ 0 →
        p.plane.normal.dot (v.pos.plus ⟨disp.1, disp.2.1, disp.2.2⟩) ≠ p.plane.w := by
  refine ⟨rfl, ?_⟩
  intro p _ v _ hon hd
  rw [Vector.dot_plus_right, hon]
  intro hcon
  apply hd
  linarith

/-- Witness for C10 at a concrete input: the triangle in the plane `z = 0`
translated by `(0, 0, 1)`; its vertex `(0,0,0)` satisfied the stored plane
equation before and violates it after. -/
theorem C10_translate_witness :
    ((CSG.mk [triAt 0]).translate (0, 0, 1)).polygons = [triAt 0].map (fun p =>
        { p with vertices := p.vertices.map fun v =>
            { v with pos := v.pos.plus ⟨0, 0, 1⟩ } }) ∧
      (triAt 0).plane.normal.dot
        ((defaultVertex.pos).plus ⟨0, 0, 1⟩) ≠ (triAt 0).plane.w := by
  have h := C10_translate_shifts_pos_keeps_plane (CSG.mk [triAt 0]) (0, 0, 1)
  refine ⟨h.1, ?_⟩
  have h2 := h.2 (triAt 0) (by decide) ⟨⟨0, 0, 0⟩, ⟨0, 0, 1⟩⟩ (by decide)
    (by norm_num [triAt, Vector.dot]) (by norm_num [triAt, Vector.dot])
  simpa [defaultVertex] using h2

/-- Witness for C9 at a concrete input. -/
theorem C9_fromPolygons_toPolygons_aliasing_witness :
    (Store.CSG.fromPolygons [0]).toPolygons = [0] ∧
      Store.readP (Store.writeP [triAt 0] 0 (triAt 1)) 0 = triAt 1 ∧
      triAt 1 ∈ ((Store.CSG.fromPolygons [0]).toPolygons).map
        (Store.readP (Store.writeP [triAt 0] 0 (triAt 1))) :=
  C9_fromPolygons_toPolygons_aliasing [0] [triAt 0] 0 (triAt 1)
    (by decide) (by decide)

end PyCSG
